import Mathlib

/-!
Verification development for the tsinfer inference core (ancestor builder,
tree sequence builder, ancestor matcher).  The repository ships the public
header (src/lib/tsinfer.h); the behaviour of the operations declared there
is modelled from the specification document, in a shallow embedding:
identifiers are dense natural numbers, times / rates / likelihoods are exact
rationals, fallible operations return an integer return code together with
the (possibly unchanged) state.
-/

/- ===================== Sentinel constants (src/lib/tsinfer.h:10-13) ===================== -/

/-- Sentinel for an absent likelihood, from the header: NULL_LIKELIHOOD is -1. -/
def NULL_LIKELIHOOD : Int := -1

/-- Sentinel for a root carrying a nonzero likelihood, from the header: -2. -/
def NONZERO_ROOT_LIKELIHOOD : Int := -2

/-- Sentinel for an absent node, from the header: NULL_NODE is -1. -/
def NULL_NODE : Int := -1

/-- Sentinel for an unset path-cache entry, from the header: CACHE_UNSET is -1. -/
def CACHE_UNSET : Int := -1

/- ===================== Error codes (spec section 7 taxonomy) ===================== -/

/-- Modelled from the spec: error code for resource exhaustion (kind 1 of section 7). -/
def TSI_ERR_NOMEM : Int := -1

/-- Modelled from the spec: error code for an argument error (kind 2 of section 7). -/
def TSI_ERR_ARG : Int := -2

/-- Modelled from the spec: error code for a state error (kind 3 of section 7). -/
def TSI_ERR_STATE : Int := -3

/-- Modelled from the spec: error code for numerical degeneracy (kind 4 of section 7). -/
def TSI_ERR_DEGENERATE : Int := -4

/- ===================== Tree sequence builder: data model ===================== -/

/-- Node record of the tree sequence builder: flags bitfield and time. -/
structure NodeRec where
  flags : Nat
  time : ℚ
deriving DecidableEq

/-- Edge record: over the half-open site interval [left, right) the child copies
from the parent (spec section 3). -/
structure EdgeRec where
  left : Nat
  right : Nat
  parent : Nat
  child : Nat
deriving DecidableEq

/-- Mutation record: at a site, on a node, with a derived state. -/
structure MutRec where
  site : Nat
  node : Nat
  derived : Int
deriving DecidableEq

/-- Modelled from the spec: the observable state of a tree_sequence_builder_t
(the implementation file holding the struct bodies is not in src/, only the
header declarations are).  The three AVL edge indexes are derived data, a
function of the edge multiset; dumps sort on demand. -/
structure TSBState where
  numSites : Nat
  nodes : List NodeRec
  edges : List EdgeRec
  muts : List MutRec
deriving DecidableEq

/-- Modelled from the spec: tree_sequence_builder_alloc creates an empty builder
over a fixed number of sites. -/
def tree_sequence_builder_alloc (num_sites : Nat) : TSBState :=
  ⟨num_sites, [], [], []⟩

/-- Time of a node by id (0 when out of range; valid states only look up in range). -/
def nodeTime (s : TSBState) (n : Nat) : ℚ :=
  (s.nodes.getD n ⟨0, 0⟩).time

/-- Modelled from the spec: per-edge validity checked by the builder on insertion:
parent and child ids in range, time(parent) > time(child), 0 ≤ left < right ≤ S. -/
def edgeChk (s : TSBState) (e : EdgeRec) : Bool :=
  decide (e.parent < s.nodes.length) && decide (e.child < s.nodes.length) &&
    decide (nodeTime s e.child < nodeTime s e.parent) &&
    decide (e.left < e.right) && decide (e.right ≤ s.numSites)

/-- Modelled from the spec: edges of one add_path call must be sorted by left
and cover disjoint intervals. -/
def pathChain : List EdgeRec → Bool
  | [] => true
  | [_] => true
  | e :: e2 :: rest => decide (e.right ≤ e2.left) && pathChain (e2 :: rest)

/-- Modelled from the spec: tree_sequence_builder_add_node appends a node and
returns its id (the fresh dense identifier) as the return code. -/
def tree_sequence_builder_add_node (s : TSBState) (t : ℚ) (is_sample : Bool) :
    Int × TSBState :=
  ((s.nodes.length : Int),
    { s with nodes := s.nodes ++ [⟨if is_sample then 1 else 0, t⟩] })

/-- Modelled from the spec: tree_sequence_builder_add_path appends a set of edges
sharing a child, after validating each edge and the sortedness / disjointness of
the call; an argument error leaves the state unchanged.  The
TSI_RESOLVE_SHARED_RECOMBS coalescing of shared breakpoints is not modelled. -/
def tree_sequence_builder_add_path (s : TSBState) (child : Nat) (es : List EdgeRec) :
    Int × TSBState :=
  if (decide (child < s.nodes.length) && es.all (fun e => edgeChk s e && decide (e.child = child))
      && pathChain es) = true then
    (0, { s with edges := s.edges ++ es })
  else
    (TSI_ERR_ARG, s)

/-- Modelled from the spec: tree_sequence_builder_add_mutations appends mutations
for one node; each (site, node) pair must be unique and sites in range. -/
def tree_sequence_builder_add_mutations (s : TSBState) (node : Nat)
    (ms : List (Nat × Int)) : Int × TSBState :=
  if (decide (node < s.nodes.length)
      && ms.all (fun m => decide (m.1 < s.numSites)
          && s.muts.all (fun m0 => !(decide (m0.site = m.1) && decide (m0.node = node))))
      && (ms.map Prod.fst).Nodup) = true then
    (0, { s with muts := s.muts ++ ms.map (fun m => ⟨m.1, node, m.2⟩) })
  else
    (TSI_ERR_ARG, s)

/-- Modelled from the spec: tree_sequence_builder_restore_nodes loads the node
arrays into a freshly allocated builder (state error when not fresh). -/
def tree_sequence_builder_restore_nodes (s : TSBState) (flags : List Nat)
    (times : List ℚ) : Int × TSBState :=
  if (decide (s.nodes = []) && decide (s.edges = []) && decide (s.muts = [])
      && decide (flags.length = times.length)) = true then
    (0, { s with nodes := List.zipWith (fun f t => NodeRec.mk f t) flags times })
  else
    (TSI_ERR_STATE, s)

/-- Modelled from the spec: tree_sequence_builder_restore_edges bulk-loads an edge
array, validating each edge, rebuilding the (derived) indexes from scratch. -/
def tree_sequence_builder_restore_edges (s : TSBState) (es : List EdgeRec) :
    Int × TSBState :=
  if (decide (s.edges = []) && decide (s.muts = []) && es.all (fun e => edgeChk s e)) = true then
    (0, { s with edges := es })
  else
    (TSI_ERR_STATE, s)

/-- Modelled from the spec: tree_sequence_builder_restore_mutations bulk-loads a
mutation array, validating ids. -/
def tree_sequence_builder_restore_mutations (s : TSBState) (ms : List MutRec) :
    Int × TSBState :=
  if (decide (s.muts = [])
      && ms.all (fun m => decide (m.site < s.numSites) && decide (m.node < s.nodes.length))) = true then
    (0, { s with muts := ms })
  else
    (TSI_ERR_STATE, s)

/- ===================== Dumps (canonical order, spec section 4.2 / 6) ===================== -/

/-- Modelled from the spec: tree_sequence_builder_dump_nodes emits the flags and
times columns in node-id order. -/
def tree_sequence_builder_dump_nodes (s : TSBState) : List Nat × List ℚ :=
  (s.nodes.map (fun n => n.flags), s.nodes.map (fun n => n.time))

/-- Canonical dump key of an edge: (parent time ascending, parent, child, left),
lexicographically, computed from a node table. -/
def edgeKeyN (nodes : List NodeRec) (e : EdgeRec) : Lex (ℚ × Lex (ℕ × Lex (ℕ × ℕ))) :=
  toLex ((nodes.getD e.parent ⟨0, 0⟩).time, toLex (e.parent, toLex (e.child, e.left)))

/-- Ordering of edges by canonical dump key. -/
def edgeLEN (nodes : List NodeRec) (a b : EdgeRec) : Prop :=
  edgeKeyN nodes a ≤ edgeKeyN nodes b

instance (nodes : List NodeRec) : DecidableRel (edgeLEN nodes) :=
  fun a b => inferInstanceAs (Decidable (edgeKeyN nodes a ≤ edgeKeyN nodes b))

instance (nodes : List NodeRec) : IsTotal EdgeRec (edgeLEN nodes) :=
  ⟨fun a b => le_total (edgeKeyN nodes a) (edgeKeyN nodes b)⟩

instance (nodes : List NodeRec) : IsTrans EdgeRec (edgeLEN nodes) :=
  ⟨fun _ _ _ h h₂ => le_trans h h₂⟩

/-- Modelled from the spec: tree_sequence_builder_dump_edges emits edges sorted by
(parent time ascending, parent, child, left). -/
def tree_sequence_builder_dump_edges (s : TSBState) : List EdgeRec :=
  List.insertionSort (edgeLEN s.nodes) s.edges

/-- Mutations grouped by site in site order, insertion order within a site:
the canonical dump order of mutations. -/
def mutsBySite (S : Nat) (ms : List MutRec) : List MutRec :=
  (List.range S).flatMap (fun site => ms.filter (fun m => m.site = site))

/-- Mutation-parent column of a dumped mutation list: the id of the previous
mutation at the same site in dump order, NULL (-1) when none. -/
def mutParentCol (l : List MutRec) : List Int :=
  (List.range l.length).map (fun i =>
    if i = 0 then -1
    else if (l.getD (i - 1) ⟨0, 0, 0⟩).site = (l.getD i ⟨0, 0, 0⟩).site then ((i : Int) - 1)
    else -1)

/-- Modelled from the spec: tree_sequence_builder_dump_mutations emits mutations
sorted by (site, insertion order), with the derived mutation-parent column. -/
def tree_sequence_builder_dump_mutations (s : TSBState) : List MutRec × List Int :=
  (mutsBySite s.numSites s.muts, mutParentCol (mutsBySite s.numSites s.muts))

/- ===================== Operation sequences over the builder ===================== -/

/-- One public mutating operation of the tree sequence builder. -/
inductive TsbOp where
  | addNode (t : ℚ) (isSample : Bool)
  | addPath (child : Nat) (es : List EdgeRec)
  | addMutations (node : Nat) (ms : List (Nat × Int))
  | restoreNodes (flags : List Nat) (times : List ℚ)
  | restoreEdges (es : List EdgeRec)
  | restoreMutations (ms : List MutRec)

/-- Step function: run one builder operation, producing the return code and the
next state. -/
def tsbStep (op : TsbOp) (s : TSBState) : Int × TSBState :=
  match op with
  | .addNode t smp => tree_sequence_builder_add_node s t smp
  | .addPath c es => tree_sequence_builder_add_path s c es
  | .addMutations n ms => tree_sequence_builder_add_mutations s n ms
  | .restoreNodes f t => tree_sequence_builder_restore_nodes s f t
  | .restoreEdges es => tree_sequence_builder_restore_edges s es
  | .restoreMutations ms => tree_sequence_builder_restore_mutations s ms

/-- Run a sequence of builder operations from a freshly allocated builder. -/
def tsbRun (S : Nat) (ops : List TsbOp) : TSBState :=
  ops.foldl (fun s op => (tsbStep op s).2) (tree_sequence_builder_alloc S)

/- ===================== Ancestor matcher: data model ===================== -/

/-- Modelled from the spec: the state an ancestor_matcher_t reads during a call
(the implementation file is not in src/): the tree sequence builder it was
allocated against, the per-site recombination rates, and the observation
error.  The scratch arrays of the struct are per-call derived data. -/
structure Matcher where
  tsb : TSBState
  rate : List ℚ
  theta : ℚ
deriving DecidableEq

/-- Recombination rate of a site (0 out of range). -/
def rateAt (m : Matcher) (s : Nat) : ℚ := m.rate.getD s 0

/-- Parent of a node in the tree at a given site: the parent of the first stored
edge whose child is the node and whose interval covers the site. -/
def parentAt (t : TSBState) (s u : Nat) : Option Nat :=
  (t.edges.find? (fun e =>
    decide (e.child = u) && decide (e.left ≤ s) && decide (s < e.right))).map
    (fun e => e.parent)

/-- Derived state of the first stored mutation at a given site on a given node. -/
def mutAt (t : TSBState) (s u : Nat) : Option Int :=
  (t.muts.find? (fun mu => decide (mu.site = s) && decide (mu.node = u))).map
    (fun mu => mu.derived)

/-- Allele carried by a node at a site, walking up the tree at that site and
applying the accumulated mutations; fuel bounds the walk. -/
def alleleAtFuel (t : TSBState) (s : Nat) : Nat → Nat → Int
  | 0, _ => 0
  | fuel + 1, u =>
    match mutAt t s u with
    | some d => d
    | none =>
      match parentAt t s u with
      | some p => alleleAtFuel t s fuel p
      | none => 0

/-- Modelled from the spec: allele lookup on a lineage at a site (ancestral state
0 at a root with no mutation). -/
def alleleAt (t : TSBState) (s u : Nat) : Int :=
  alleleAtFuel t s (t.nodes.length + 1) u

/-- Modelled from the spec: the per-site emission probability: 1 on a missing
allele, 1 - theta on agreement, theta on disagreement. -/
def emissionFactor (theta : ℚ) (a aq : Int) : ℚ :=
  if aq = -1 ∨ a = -1 then 1 else if a = aq then 1 - theta else theta

/-- Maximum of a likelihood vector over the node ids below N (0 when N = 0). -/
def maxOver (N : Nat) (f : Nat → ℚ) : ℚ :=
  ((List.range N).map f).foldr max 0

/-- Per-site record kept for the traceback: which nodes required recombination,
a node of maximum likelihood, and the normalized likelihood vector. -/
structure SiteRec where
  flags : Nat → Bool
  maxNode : Nat
  lik : Nat → ℚ

/-- Number of nodes the matcher works over. -/
def ssN (m : Matcher) : Nat := m.tsb.nodes.length

/-- No-recombination likelihood at a site: y u = L u * (1 - rho). -/
def ssY (m : Matcher) (s : Nat) (L : Nat → ℚ) : Nat → ℚ :=
  fun u => L u * (1 - rateAt m s)

/-- Maximum of the no-recombination likelihoods. -/
def ssM (m : Matcher) (s : Nat) (L : Nat → ℚ) : ℚ := maxOver (ssN m) (ssY m s L)

/-- Recombination-from-the-population likelihood: z = rho / N. -/
def ssZ (m : Matcher) (s : Nat) : ℚ := rateAt m s / ((ssN m : Nat) : ℚ)

/-- Post-recombination-choice, post-emission likelihood of a node. -/
def ssL2 (m : Matcher) (s : Nat) (aq : Int) (L : Nat → ℚ) : Nat → ℚ :=
  fun u =>
    (if ssZ m s ≤ ssM m s L ∧ ssY m s L u = ssM m s L then ssY m s L u else ssZ m s) *
      emissionFactor m.theta (alleleAt m.tsb s u) aq

/-- Maximum after the emission step, used for normalization. -/
def ssM2 (m : Matcher) (s : Nat) (aq : Int) (L : Nat → ℚ) : ℚ :=
  maxOver (ssN m) (ssL2 m s aq L)

/-- Recombination-required flags of a site: a node is flagged unless it attains
the no-recombination maximum while that maximum beats z. -/
def ssFlags (m : Matcher) (s : Nat) (L : Nat → ℚ) : Nat → Bool :=
  fun u => !(decide (ssZ m s ≤ ssM m s L) && decide (ssY m s L u = ssM m s L))

/-- Modelled from the spec: one forward step of the Li-Stephens HMM at a site
(spec section 4.3): recombination choice y against z = rho / N, emission,
normalization by the maximum, and the recorded maximum-likelihood node
(ties broken toward the lower node id).  A zero maximum is the numerical
degeneracy error. -/
def siteStep (m : Matcher) (s : Nat) (aq : Int) (L : Nat → ℚ) : Except Int SiteRec :=
  if ssM2 m s aq L = 0 then Except.error TSI_ERR_DEGENERATE
  else Except.ok
    ⟨ssFlags m s L,
     ((List.range (ssN m)).find? (fun u => decide (ssL2 m s aq L u = ssM2 m s aq L))).getD 0,
     fun u => ssL2 m s aq L u / ssM2 m s aq L⟩

/-- Modelled from the spec: the forward pass from site s over k sites, threading
the normalized likelihood vector and collecting the per-site records. -/
def forwardFrom (m : Matcher) (hap : List Int) :
    Nat → Nat → (Nat → ℚ) → Except Int (List SiteRec × (Nat → ℚ))
  | _, 0, L => Except.ok ([], L)
  | s, k + 1, L =>
    match siteStep m s (hap.getD s 0) L with
    | .error c => .error c
    | .ok r =>
      match forwardFrom m hap (s + 1) k r.lik with
      | .error c => .error c
      | .ok (rs, Lf) => .ok (r :: rs, Lf)

/-- Copying-path segment: over [left, right) the query copies from parent. -/
structure Seg where
  left : Nat
  right : Nat
  parent : Nat
deriving DecidableEq

/-- Record of the forward pass for site start + i (an all-false dummy out of range). -/
def recAt (recs : List SiteRec) (i : Nat) : SiteRec :=
  recs.getD i ⟨fun _ => false, 0, fun _ => 0⟩

/-- Modelled from the spec: the right-to-left traceback (spec section 4.3): at
site start + k + 1, when the current node is in the recombination-required set,
close the current segment there and switch to the best node of the previous
site; the segment reaching the left end is closed at start. -/
def tbGo (recs : List SiteRec) (start : Nat) : Nat → Nat → Nat → List Seg → List Seg
  | 0, u, R, acc => ⟨start, R, u⟩ :: acc
  | k + 1, u, R, acc =>
    if (recAt recs (k + 1)).flags u then
      tbGo recs start k (recAt recs k).maxNode (start + k + 1) (⟨start + k + 1, R, u⟩ :: acc)
    else
      tbGo recs start k u R acc

/-- Output of find_path: the copying path and the mismatching sites. -/
structure FPOut where
  path : List Seg
  mismatches : List Nat
deriving DecidableEq

/-- Allele produced at a site by following the copying path and applying the
mutations stored in the tree sequence builder (-1 when no segment covers it). -/
def pathAllele (t : TSBState) (path : List Seg) (s : Nat) : Int :=
  match path.find? (fun g => decide (g.left ≤ s) && decide (s < g.right)) with
  | some g => alleleAt t s g.parent
  | none => -1

/-- Copying path assembled by the traceback from the forward-pass records of the
site range [a, b): empty for an empty range, else the right-to-left walk from
the maximum-likelihood node of site b - 1. -/
def pathOf (recs : List SiteRec) (a b : Nat) : List Seg :=
  if b - a = 0 then []
  else tbGo recs a (b - a - 1) (recAt recs (b - a - 1)).maxNode b []

/-- Modelled from the spec: the mismatch output: every site of [a, b) whose
non-missing query allele differs from the allele copied along the path. -/
def mismOf (t : TSBState) (a b : Nat) (hap : List Int) (path : List Seg) : List Nat :=
  (List.range' a (b - a)).filter
    (fun s => decide (hap.getD s 0 ≠ -1) && decide (pathAllele t path s ≠ hap.getD s 0))

/-- Modelled from the spec: ancestor_matcher_find_path (spec section 4.3):
validate the site range, run the forward pass over [a, b), trace back from the
maximum-likelihood node at b - 1, and report the mismatching sites. -/
def ancestor_matcher_find_path (m : Matcher) (a b : Nat) (hap : List Int) :
    Except Int FPOut :=
  if (decide (a ≤ b) && decide (b ≤ m.tsb.numSites)
      && decide (hap.length = m.tsb.numSites)) = true then
    match forwardFrom m hap a (b - a) (fun _ => 1) with
    | .error c => .error c
    | .ok (recs, _) =>
      Except.ok ⟨pathOf recs a b, mismOf m.tsb a b hap (pathOf recs a b)⟩
  else
    Except.error TSI_ERR_ARG

/-- Exact tiling of [a, b): the segments are adjacent, nonempty, start at a and
end at b (an empty list tiles only the empty interval). -/
def tiles : Nat → Nat → List Seg → Bool
  | a, b, [] => decide (a = b)
  | a, b, g :: rest => decide (g.left = a) && decide (g.left < g.right) && tiles g.right b rest

/-- A site is a segment boundary of a path when two consecutive segments meet
there. -/
def isBoundary (path : List Seg) (s : Nat) : Bool :=
  (path.zip path.tail).any (fun p => decide (p.1.right = s))

/- ===================== Helper lemmas ===================== -/

/-- Shape of a successful find_path call: the guard held, the forward pass
succeeded, and the output is the traceback path with its mismatch list. -/
theorem find_path_ok_shape {m : Matcher} {a b : Nat} {hap : List Int} {out : FPOut}
    (hok : ancestor_matcher_find_path m a b hap = Except.ok out) :
    a ≤ b ∧ b ≤ m.tsb.numSites ∧ hap.length = m.tsb.numSites ∧
    ∃ recs Lf,
      forwardFrom m hap a (b - a) (fun _ => 1) = Except.ok (recs, Lf) ∧
      out = ⟨pathOf recs a b, mismOf m.tsb a b hap (pathOf recs a b)⟩ := by
  unfold ancestor_matcher_find_path at hok
  split at hok
  case isTrue h =>
    simp only [Bool.and_eq_true, decide_eq_true_eq] at h
    refine ⟨h.1.1, h.1.2, h.2, ?_⟩
    cases hfw : forwardFrom m hap a (b - a) (fun _ => 1) with
    | error c => rw [hfw] at hok; exact absurd hok (by simp)
    | ok p =>
      obtain ⟨recs, Lf⟩ := p
      rw [hfw] at hok
      simp only [Except.ok.injEq] at hok
      exact ⟨recs, Lf, rfl, hok.symm⟩
  case isFalse => exact absurd hok (by simp)

/-- Traceback tiling invariant: starting from a current right endpoint strictly
beyond the remaining sites, with an accumulator tiling the rest, the traceback
produces a tiling of the whole interval. -/
theorem tbGo_tiles (recs : List SiteRec) (start b : Nat) :
    ∀ (k u R : Nat) (acc : List Seg), start + k < R →
      tiles R b acc = true → tiles start b (tbGo recs start k u R acc) = true := by
  intro k
  induction k with
  | zero =>
    intro u R acc hR hacc
    simp only [tbGo, tiles, Bool.and_eq_true, decide_eq_true_eq]
    exact ⟨⟨trivial, by omega⟩, hacc⟩
  | succ k ih =>
    intro u R acc hR hacc
    simp only [tbGo]
    split
    · exact ih _ _ _ (by omega)
        (by simp only [tiles, Bool.and_eq_true, decide_eq_true_eq]
            exact ⟨⟨trivial, by omega⟩, hacc⟩)
    · exact ih _ _ _ (by omega) hacc

/- ===================== Claim theorems ===================== -/

/-- C10: the sentinel constants of the header are all negative; the two
likelihood sentinels are distinct and lie outside the valid likelihood range
[0, 1]; the null-node and cache sentinels differ from every valid (dense,
non-negative) node or site identifier. -/
theorem sentinel_constants_no_collision :
    NULL_LIKELIHOOD < 0 ∧ NONZERO_ROOT_LIKELIHOOD < 0 ∧ NULL_NODE < 0 ∧ CACHE_UNSET < 0 ∧
    NULL_LIKELIHOOD ≠ NONZERO_ROOT_LIKELIHOOD ∧
    (∀ q : ℚ, 0 ≤ q → q ≤ 1 →
      q ≠ (NULL_LIKELIHOOD : ℚ) ∧ q ≠ (NONZERO_ROOT_LIKELIHOOD : ℚ)) ∧
    (∀ n : Int, 0 ≤ n → n ≠ NULL_NODE ∧ n ≠ CACHE_UNSET) := by
  refine ⟨by norm_num [NULL_LIKELIHOOD], by norm_num [NONZERO_ROOT_LIKELIHOOD],
    by norm_num [NULL_NODE], by norm_num [CACHE_UNSET],
    by norm_num [NULL_LIKELIHOOD, NONZERO_ROOT_LIKELIHOOD], ?_, ?_⟩
  · intro q h0 _
    constructor
    · intro h
      rw [h] at h0
      norm_num [NULL_LIKELIHOOD] at h0
    · intro h
      rw [h] at h0
      norm_num [NONZERO_ROOT_LIKELIHOOD] at h0
  · intro n h0
    constructor
    · intro h
      rw [h] at h0
      norm_num [NULL_NODE] at h0
    · intro h
      rw [h] at h0
      norm_num [CACHE_UNSET] at h0

/-- Witness for C10 at the concrete likelihood 1/2 and identifier 0. -/
theorem sentinel_constants_no_collision_witness :
    (1 / 2 : ℚ) ≠ (NULL_LIKELIHOOD : ℚ) ∧ (0 : Int) ≠ NULL_NODE :=
  ⟨(sentinel_constants_no_collision.2.2.2.2.2.1 (1 / 2) (by norm_num) (by norm_num)).1,
   (sentinel_constants_no_collision.2.2.2.2.2.2 0 le_rfl).1⟩

/-- C1: after a successful find_path call, the returned segments, concatenated
in order, exactly cover the half-open interval [start, end) with no gaps and no
overlaps, and every emitted mismatch site lies within [start, end). -/
theorem find_path_covers {m : Matcher} {a b : Nat} {hap : List Int} {out : FPOut}
    (hok : ancestor_matcher_find_path m a b hap = Except.ok out) :
    tiles a b out.path = true ∧ ∀ s ∈ out.mismatches, a ≤ s ∧ s < b := by
  obtain ⟨hab, _, _, recs, Lf, _, hout⟩ := find_path_ok_shape hok
  subst hout
  constructor
  · show tiles a b (pathOf recs a b) = true
    unfold pathOf
    split
    · next h => simp only [tiles, decide_eq_true_eq]; omega
    · next h =>
      exact tbGo_tiles recs a b _ _ _ _ (by omega) (by simp [tiles])
  · intro s hs
    have hmem := (List.mem_filter.1 hs).1
    rw [List.mem_range'_1] at hmem
    omega

/-- C8: find_path on an empty site range (start = end) succeeds and returns the
empty path and no mismatches. -/
theorem find_path_empty_range (m : Matcher) (a : Nat) (hap : List Int)
    (hb : a ≤ m.tsb.numSites) (hh : hap.length = m.tsb.numSites) :
    ancestor_matcher_find_path m a a hap = Except.ok ⟨[], []⟩ := by
  simp [ancestor_matcher_find_path, hb, hh, Nat.sub_self, forwardFrom, pathOf,
    mismOf, List.range']

/-- C2 (amended): at every site of [start, end) that is not listed in the
mismatch output and whose query allele is not missing, the allele obtained by
following the returned copying path and applying the stored mutations equals
the query allele. -/
theorem find_path_reproduces {m : Matcher} {a b : Nat} {hap : List Int} {out : FPOut}
    (hok : ancestor_matcher_find_path m a b hap = Except.ok out)
    (s : Nat) (h1 : a ≤ s) (h2 : s < b) (hq : hap.getD s 0 ≠ -1)
    (hnm : s ∉ out.mismatches) :
    pathAllele m.tsb out.path s = hap.getD s 0 := by
  obtain ⟨hab, _, _, recs, Lf, _, hout⟩ := find_path_ok_shape hok
  subst hout
  by_contra hne
  refine hnm (List.mem_filter.2 ⟨?_, ?_⟩)
  · rw [List.mem_range'_1]
    omega
  · simp only [Bool.and_eq_true, decide_eq_true_eq]
    exact ⟨hq, hne⟩

/- ===================== Concrete instances for witnesses ===================== -/

deriving instance DecidableEq for Except

/-- Concrete matcher: one node of time 1, one site, no edges or mutations,
recombination rate 0, observation error 0. -/
def mEx1 : Matcher := ⟨⟨1, [⟨0, 1⟩], [], []⟩, [0], 0⟩

unseal Rat.mul Rat.sub Rat.add Rat.inv in
/-- Witness for C1 at a concrete one-site match against mEx1. -/
theorem find_path_covers_witness :
    tiles 0 1 (FPOut.mk [⟨0, 1, 0⟩] []).path = true ∧
      ∀ s ∈ (FPOut.mk [⟨0, 1, 0⟩] []).mismatches, 0 ≤ s ∧ s < 1 :=
  find_path_covers
    (by decide : ancestor_matcher_find_path mEx1 0 1 [0] = Except.ok (FPOut.mk [⟨0, 1, 0⟩] []))

/-- Witness for C8 at the concrete matcher mEx1 with start = end = 0. -/
theorem find_path_empty_range_witness :
    ancestor_matcher_find_path mEx1 0 0 [0] = Except.ok ⟨[], []⟩ :=
  find_path_empty_range mEx1 0 [0] (by decide) (by decide)

unseal Rat.mul Rat.sub Rat.add Rat.inv in
/-- Counterexample for C2 as stated: a successful one-site match with a missing
query allele (-1) emits no mismatch, yet the allele obtained by following the
path is 0, which does not equal the query allele -1. -/
theorem find_path_reproduce_cx :
    ancestor_matcher_find_path mEx1 0 1 [-1] = Except.ok ⟨[⟨0, 1, 0⟩], []⟩ ∧
    pathAllele mEx1.tsb [⟨0, 1, 0⟩] 0 = 0 ∧ ((0 : Int) ≠ -1) := by
  refine ⟨by decide, by decide, by decide⟩

unseal Rat.mul Rat.sub Rat.add Rat.inv in
/-- Witness for the amended C2 at a concrete one-site match against mEx1. -/
theorem find_path_reproduces_witness :
    pathAllele mEx1.tsb (FPOut.mk [⟨0, 1, 0⟩] []).path 0 = [(0 : Int)].getD 0 0 :=
  find_path_reproduces
    (by decide : ancestor_matcher_find_path mEx1 0 1 [0] = Except.ok (FPOut.mk [⟨0, 1, 0⟩] []))
    0 (by decide) (by decide) (by decide) (by decide)

/- ===================== Ancestor builder: data model ===================== -/

/-- Modelled from the spec: observable state of an ancestor_builder_t: the
sample and site counts and, per added site, its frequency and genotype column
(the implementation file is not under src/). -/
structure ABState where
  num_samples : Nat
  num_sites : Nat
  sites : List (Nat × Nat × List Int)
deriving DecidableEq

/-- Modelled from the spec: ancestor_builder_alloc creates an empty builder. -/
def ancestor_builder_alloc (num_samples num_sites : Nat) : ABState :=
  ⟨num_samples, num_sites, []⟩

/-- Frequency and genotype column of a site, when added. -/
def siteInfo (ab : ABState) (s : Nat) : Option (Nat × List Int) :=
  (ab.sites.find? (fun p => decide (p.1 = s))).map (fun p => p.2)

/-- Frequency of a site (0 when the site was not added). -/
def freqOf (ab : ABState) (s : Nat) : Nat := ((siteInfo ab s).getD (0, [])).1

/-- Genotype column of a site (empty when the site was not added). -/
def genoOf (ab : ABState) (s : Nat) : List Int := ((siteInfo ab s).getD (0, [])).2

/-- Modelled from the spec: ancestor_builder_add_site records a site with its
full genotype column; the frequency must be the count of 1-alleles. -/
def ancestor_builder_add_site (ab : ABState) (site freq : Nat) (g : List Int) :
    Int × ABState :=
  if (decide (site < ab.num_sites) && decide (g.length = ab.num_samples)
      && ab.sites.all (fun p => decide (p.1 ≠ site))
      && decide (freq = (g.filter (fun a => a = 1)).length)) = true then
    (0, { ab with sites := ab.sites ++ [(site, freq, g)] })
  else
    (TSI_ERR_ARG, ab)

/-- Strictly ascending list of focal sites. -/
def focalSorted : List Nat → Bool
  | [] => true
  | [_] => true
  | x :: y :: r => decide (x < y) && focalSorted (y :: r)

/-- Modelled from the spec: ancestor derivation, leftward walk (spec section
4.1): at each older site (frequency at least the focal frequency) the ancestor
takes the majority allele of the consensus set, ties toward 0; the consensus
set keeps the agreeing samples and the walk stops when it shrinks to half the
focal frequency or below.  Younger sites take allele 0. -/
def abExtendLeft (ab : ABState) (f : Nat) :
    Nat → List Nat → List (Nat × Int) → Nat × List (Nat × Int)
  | 0, _, acc => (0, acc)
  | p + 1, C, acc =>
    if freqOf ab p < f then abExtendLeft ab f p C ((p, 0) :: acc)
    else
      let g := genoOf ab p
      let ones := (C.filter (fun i => g.getD i 0 = 1)).length
      let a : Int := if 2 * ones > C.length then 1 else 0
      let C2 := C.filter (fun i => g.getD i 0 = a)
      if 2 * C2.length ≤ f then (p + 1, acc)
      else abExtendLeft ab f p C2 ((p, a) :: acc)

/-- Modelled from the spec: ancestor derivation, rightward walk, symmetric to
the leftward walk; the fuel argument counts the sites left to visit. -/
def abExtendRight (ab : ABState) (f : Nat) :
    Nat → Nat → List Nat → List (Nat × Int) → Nat × List (Nat × Int)
  | s, 0, _, acc => (s, acc)
  | s, fuel + 1, C, acc =>
    if freqOf ab s < f then abExtendRight ab f (s + 1) fuel C (acc ++ [(s, 0)])
    else
      let g := genoOf ab s
      let ones := (C.filter (fun i => g.getD i 0 = 1)).length
      let a : Int := if 2 * ones > C.length then 1 else 0
      let C2 := C.filter (fun i => g.getD i 0 = a)
      if 2 * C2.length ≤ f then (s, acc)
      else abExtendRight ab f (s + 1) fuel C2 (acc ++ [(s, a)])

/-- Modelled from the spec: ancestor_builder_make_ancestor (spec section 4.1):
focal sites must all be present, strictly ascending, and share one genotype
pattern; focal sites get allele 1, sites between focal sites take the majority
allele of the consensus set (older sites) or 0 (younger sites), the flanks are
extended outward by the two walks, and sites outside [start, end) are -1. -/
def ancestor_builder_make_ancestor (ab : ABState) (focal : List Nat) :
    Int × (Nat × Nat × List Int) :=
  match focal with
  | [] => (TSI_ERR_ARG, (0, 0, []))
  | s0 :: rest =>
    let g0 := genoOf ab s0
    if ((s0 :: rest).all (fun s =>
          decide ((siteInfo ab s).isSome) && decide (genoOf ab s = g0)
            && decide (s < ab.num_sites))
        && focalSorted (s0 :: rest)) = true then
      let f := freqOf ab s0
      let hi := (s0 :: rest).getLastD s0
      let C0 := (List.range ab.num_samples).filter (fun i => g0.getD i 0 = 1)
      let lres := abExtendLeft ab f s0 C0 []
      let rres := abExtendRight ab f (hi + 1) (ab.num_sites - (hi + 1)) C0 []
      let interior : Nat → Int := fun s =>
        if (s0 :: rest).contains s then 1
        else if freqOf ab s < f then 0
        else
          let g := genoOf ab s
          let ones := (C0.filter (fun i => g.getD i 0 = 1)).length
          if 2 * ones > C0.length then 1 else 0
      let hap := (List.range ab.num_sites).map (fun s =>
        if s < lres.1 ∨ rres.1 ≤ s then -1
        else if s < s0 then ((lres.2.find? (fun p => decide (p.1 = s))).getD (s, 0)).2
        else if hi < s then ((rres.2.find? (fun p => decide (p.1 = s))).getD (s, 0)).2
        else interior s)
      (0, (lres.1, rres.1, hap))
    else
      (TSI_ERR_ARG, (0, 0, []))

/-- One public mutating-or-querying operation of the ancestor builder. -/
inductive AbOp where
  | addSite (site freq : Nat) (g : List Int)
  | makeAncestor (focal : List Nat)

/-- Step function for the ancestor builder: the return code and the next state
(make_ancestor delivers its outputs through caller buffers and never mutates
the builder). -/
def abStep (op : AbOp) (ab : ABState) : Int × ABState :=
  match op with
  | .addSite site freq g => ancestor_builder_add_site ab site freq g
  | .makeAncestor focal => ((ancestor_builder_make_ancestor ab focal).1, ab)

/- ===================== C3: edge invariant under all operations ===================== -/

/-- Invariant: every stored edge passes the per-edge validity check. -/
def edgesOK (s : TSBState) : Prop := ∀ e ∈ s.edges, edgeChk s e = true

/-- Edge validity only reads the node table and the site count. -/
theorem edgeChk_congr {s s' : TSBState} (hn : s'.nodes = s.nodes)
    (hS : s'.numSites = s.numSites) (e : EdgeRec) : edgeChk s' e = edgeChk s e := by
  simp [edgeChk, nodeTime, hn, hS]

/-- Appending a node preserves the time of every existing node. -/
theorem nodeTime_append (s : TSBState) (x : NodeRec) (n : Nat)
    (h : n < s.nodes.length) :
    nodeTime { s with nodes := s.nodes ++ [x] } n = nodeTime s n := by
  simp only [nodeTime]
  rw [List.getD_append _ _ _ _ h]

/-- Appending a node preserves the validity of an existing edge. -/
theorem edgeChk_addNode {s : TSBState} (x : NodeRec) {e : EdgeRec}
    (h : edgeChk s e = true) :
    edgeChk { s with nodes := s.nodes ++ [x] } e = true := by
  simp only [edgeChk, Bool.and_eq_true, decide_eq_true_eq] at h ⊢
  obtain ⟨⟨⟨⟨hp, hc⟩, ht⟩, hlr⟩, hrS⟩ := h
  refine ⟨⟨⟨⟨?_, ?_⟩, ?_⟩, hlr⟩, hrS⟩
  · simp only [List.length_append, List.length_cons, List.length_nil]
    omega
  · simp only [List.length_append, List.length_cons, List.length_nil]
    omega
  · rw [nodeTime_append s x e.parent hp, nodeTime_append s x e.child hc]
    exact ht

/-- Every single builder operation preserves the edge invariant. -/
theorem tsbStep_edgesOK (op : TsbOp) (s : TSBState) (h : edgesOK s) :
    edgesOK (tsbStep op s).2 := by
  cases op with
  | addNode t smp =>
    intro e he
    exact edgeChk_addNode _ (h e he)
  | addPath c es =>
    simp only [tsbStep, tree_sequence_builder_add_path]
    split
    · next hv =>
      intro e he
      simp only [List.mem_append] at he
      have hcong : ∀ e', edgeChk { s with edges := s.edges ++ es } e' = edgeChk s e' :=
        fun e' => edgeChk_congr rfl rfl e'
      rw [hcong]
      rcases he with he | he
      · exact h e he
      · simp only [Bool.and_eq_true, List.all_eq_true, decide_eq_true_eq] at hv
        exact (hv.1.2 e he).1
    · exact h
  | addMutations n ms =>
    simp only [tsbStep, tree_sequence_builder_add_mutations]
    split
    · intro e he
      rw [edgeChk_congr rfl rfl]
      exact h e he
    · exact h
  | restoreNodes f t =>
    simp only [tsbStep, tree_sequence_builder_restore_nodes]
    split
    · next hv =>
      simp only [Bool.and_eq_true, decide_eq_true_eq] at hv
      intro e he
      rw [hv.1.1.2] at he
      exact absurd he (List.not_mem_nil e)
    · exact h
  | restoreEdges es =>
    simp only [tsbStep, tree_sequence_builder_restore_edges]
    split
    · next hv =>
      simp only [Bool.and_eq_true, decide_eq_true_eq, List.all_eq_true] at hv
      intro e he
      rw [edgeChk_congr rfl rfl]
      exact hv.2 e he
    · exact h
  | restoreMutations ms =>
    simp only [tsbStep, tree_sequence_builder_restore_mutations]
    split
    · intro e he
      rw [edgeChk_congr rfl rfl]
      exact h e he
    · exact h

/-- Every single builder operation preserves the site count. -/
theorem tsbStep_numSites (op : TsbOp) (s : TSBState) :
    (tsbStep op s).2.numSites = s.numSites := by
  cases op <;>
    simp only [tsbStep, tree_sequence_builder_add_node,
      tree_sequence_builder_add_path, tree_sequence_builder_add_mutations,
      tree_sequence_builder_restore_nodes, tree_sequence_builder_restore_edges,
      tree_sequence_builder_restore_mutations] <;>
    first
      | rfl
      | (split <;> rfl)

/-- Running any operation list from a fresh builder keeps the edge invariant. -/
theorem tsbRun_edgesOK (S : Nat) (ops : List TsbOp) : edgesOK (tsbRun S ops) := by
  suffices h : ∀ s : TSBState, edgesOK s → edgesOK (ops.foldl (fun s op => (tsbStep op s).2) s) by
    exact h _ (fun e he => absurd he (List.not_mem_nil e))
  induction ops with
  | nil => exact fun s hs => hs
  | cons op rest ih =>
    intro s hs
    exact ih _ (tsbStep_edgesOK op s hs)

/-- Running any operation list from a fresh builder keeps the site count. -/
theorem tsbRun_numSites (S : Nat) (ops : List TsbOp) : (tsbRun S ops).numSites = S := by
  suffices h : ∀ s : TSBState,
      (ops.foldl (fun s op => (tsbStep op s).2) s).numSites = s.numSites by
    exact h _
  induction ops with
  | nil => exact fun s => rfl
  | cons op rest ih =>
    intro s
    rw [List.foldl_cons, ih, tsbStep_numSites]

/-- C3: after any sequence of tree sequence builder operations, every stored
edge satisfies time(parent) > time(child) and 0 ≤ left < right ≤ S. -/
theorem tsb_edge_invariant (S : Nat) (ops : List TsbOp) :
    ∀ e ∈ (tsbRun S ops).edges,
      nodeTime (tsbRun S ops) e.child < nodeTime (tsbRun S ops) e.parent ∧
      e.left < e.right ∧ e.right ≤ S := by
  intro e he
  have h := tsbRun_edgesOK S ops e he
  have hS := tsbRun_numSites S ops
  simp only [edgeChk, Bool.and_eq_true, decide_eq_true_eq] at h
  exact ⟨h.1.1.2, h.1.2, hS ▸ h.2⟩

/-- Concrete operation list: two nodes and a two-site edge between them. -/
def opsEx : List TsbOp :=
  [.addNode 1 false, .addNode 0 true, .addPath 1 [⟨0, 2, 0, 1⟩]]

/-- Witness for C3 at the concrete run of opsEx on a two-site builder. -/
theorem tsb_edge_invariant_witness :
    (⟨0, 2, 0, 1⟩ : EdgeRec) ∈ (tsbRun 2 opsEx).edges ∧
      (nodeTime (tsbRun 2 opsEx) 1 < nodeTime (tsbRun 2 opsEx) 0 ∧
        (0 : Nat) < 2 ∧ 2 ≤ 2) := by
  refine ⟨by decide, ?_⟩
  have h := tsb_edge_invariant 2 opsEx ⟨0, 2, 0, 1⟩ (by decide)
  exact ⟨h.1, by omega, h.2.2⟩

/- ===================== C6 / C7: return-code contract, purity ===================== -/

/-- A failing forward step reports only the numerical-degeneracy code. -/
theorem siteStep_error {m : Matcher} {s : Nat} {aq : Int} {L : Nat → ℚ} {c : Int}
    (h : siteStep m s aq L = Except.error c) : c = TSI_ERR_DEGENERATE := by
  unfold siteStep at h
  split at h
  · simp only [Except.error.injEq] at h
    exact h.symm
  · exact absurd h (by simp)

/-- A failing forward pass reports only the numerical-degeneracy code. -/
theorem forwardFrom_error {m : Matcher} {hap : List Int} :
    ∀ (k s : Nat) (L : Nat → ℚ) (c : Int),
      forwardFrom m hap s k L = Except.error c → c = TSI_ERR_DEGENERATE := by
  intro k
  induction k with
  | zero =>
    intro s L c h
    exact absurd h (by simp [forwardFrom])
  | succ k ih =>
    intro s L c h
    unfold forwardFrom at h
    cases hs : siteStep m s (hap.getD s 0) L with
    | error c2 =>
      rw [hs] at h
      simp only [Except.error.injEq] at h
      exact h ▸ siteStep_error hs
    | ok r =>
      rw [hs] at h
      simp only [] at h
      cases hf : forwardFrom m hap (s + 1) k r.lik with
      | error c3 =>
        rw [hf] at h
        simp only [Except.error.injEq] at h
        exact h ▸ ih (s + 1) r.lik c3 hf
      | ok p =>
        rw [hf] at h
        exact absurd h (by simp)

/-- A failing find_path call reports a negative error code. -/
theorem find_path_error_neg {m : Matcher} {a b : Nat} {hap : List Int} {c : Int}
    (h : ancestor_matcher_find_path m a b hap = Except.error c) : c < 0 := by
  unfold ancestor_matcher_find_path at h
  split at h
  · cases hf : forwardFrom m hap a (b - a) (fun _ => 1) with
    | error c2 =>
      rw [hf] at h
      simp only [Except.error.injEq] at h
      have h4 := forwardFrom_error _ _ _ _ hf
      rw [← h, h4]
      norm_num [TSI_ERR_DEGENERATE]
    | ok p =>
      obtain ⟨recs, Lf⟩ := p
      rw [hf] at h
      exact absurd h (by simp)
  · simp only [Except.error.injEq] at h
    rw [← h]
    norm_num [TSI_ERR_ARG]

/-- Return code of make_ancestor: success or the argument-error code. -/
theorem make_ancestor_rc (ab : ABState) (focal : List Nat) :
    (ancestor_builder_make_ancestor ab focal).1 = 0 ∨
    (ancestor_builder_make_ancestor ab focal).1 = TSI_ERR_ARG := by
  unfold ancestor_builder_make_ancestor
  cases focal with
  | nil => exact Or.inr rfl
  | cons s0 rest =>
    simp only []
    split
    · exact Or.inl rfl
    · exact Or.inr rfl

/-- C6 (amended): every modelled operation of the three components other than
add_node returns 0 on success and a negative error code on failure; add_node
returns the fresh (non-negative) node id; a failing builder or ancestor-builder
operation leaves the observable state unchanged, and find_path never mutates
its component. -/
theorem api_error_contract :
    (∀ (op : TsbOp) (s : TSBState),
        ((tsbStep op s).1 < 0 → (tsbStep op s).2 = s) ∧
        (match op with
          | .addNode _ _ => (tsbStep op s).1 = (s.nodes.length : Int)
          | _ => (tsbStep op s).1 = 0 ∨ (tsbStep op s).1 < 0)) ∧
    (∀ (op : AbOp) (ab : ABState),
        ((abStep op ab).1 < 0 → (abStep op ab).2 = ab) ∧
        ((abStep op ab).1 = 0 ∨ (abStep op ab).1 < 0)) ∧
    (∀ (m : Matcher) (a b : Nat) (hap : List Int) (c : Int),
        ancestor_matcher_find_path m a b hap = Except.error c → c < 0) := by
  refine ⟨?_, ?_, fun m a b hap c h => find_path_error_neg h⟩
  · intro op s
    cases op with
    | addNode t smp =>
      exact ⟨fun h => absurd h (Int.natCast_nonneg _).not_lt, rfl⟩
    | addPath c es =>
      simp only [tsbStep, tree_sequence_builder_add_path]
      split
      · exact ⟨fun h => absurd h (by norm_num), Or.inl rfl⟩
      · exact ⟨fun _ => rfl, Or.inr (by norm_num [TSI_ERR_ARG])⟩
    | addMutations n ms =>
      simp only [tsbStep, tree_sequence_builder_add_mutations]
      split
      · exact ⟨fun h => absurd h (by norm_num), Or.inl rfl⟩
      · exact ⟨fun _ => rfl, Or.inr (by norm_num [TSI_ERR_ARG])⟩
    | restoreNodes f t =>
      simp only [tsbStep, tree_sequence_builder_restore_nodes]
      split
      · exact ⟨fun h => absurd h (by norm_num), Or.inl rfl⟩
      · exact ⟨fun _ => rfl, Or.inr (by norm_num [TSI_ERR_STATE])⟩
    | restoreEdges es =>
      simp only [tsbStep, tree_sequence_builder_restore_edges]
      split
      · exact ⟨fun h => absurd h (by norm_num), Or.inl rfl⟩
      · exact ⟨fun _ => rfl, Or.inr (by norm_num [TSI_ERR_STATE])⟩
    | restoreMutations ms =>
      simp only [tsbStep, tree_sequence_builder_restore_mutations]
      split
      · exact ⟨fun h => absurd h (by norm_num), Or.inl rfl⟩
      · exact ⟨fun _ => rfl, Or.inr (by norm_num [TSI_ERR_STATE])⟩
  · intro op ab
    cases op with
    | addSite site freq g =>
      simp only [abStep, ancestor_builder_add_site]
      split
      · exact ⟨fun h => absurd h (by norm_num), Or.inl rfl⟩
      · exact ⟨fun _ => rfl, Or.inr (by norm_num [TSI_ERR_ARG])⟩
    | makeAncestor focal =>
      refine ⟨fun _ => rfl, ?_⟩
      rcases make_ancestor_rc ab focal with h | h
      · exact Or.inl h
      · refine Or.inr ?_
        show (ancestor_builder_make_ancestor ab focal).1 < 0
        rw [h]
        norm_num [TSI_ERR_ARG]

/-- Counterexample for C6 as stated: the second add_node call succeeds and
returns the fresh node id 1, which is not 0. -/
theorem api_returns_zero_cx :
    (tsbStep (.addNode 0 true)
        (tsbStep (.addNode 1 false) (tree_sequence_builder_alloc 1)).2).1 = 1 ∧
      ((1 : Int) ≠ 0) :=
  ⟨by decide, by decide⟩

/-- Witness for the amended C6: a failing add_path leaves the builder unchanged,
and a failing find_path reports a negative code. -/
theorem api_error_contract_witness :
    (tsbStep (.addPath 0 [⟨0, 1, 0, 0⟩]) (tree_sequence_builder_alloc 1)).2 =
        tree_sequence_builder_alloc 1 ∧ ((-2 : Int) < 0) :=
  ⟨(api_error_contract.1 (.addPath 0 [⟨0, 1, 0, 0⟩]) (tree_sequence_builder_alloc 1)).1
      (by decide),
    api_error_contract.2.2 mEx1 1 0 [0] (-2) (by decide)⟩

/-- C7: make_ancestor is pure and deterministic: it leaves the builder state
unchanged, and a second call with the same focal sites, made after a first
call, produces byte-identical (start, end, haplotype) output. -/
theorem make_ancestor_pure (ab : ABState) (focal : List Nat) :
    (abStep (.makeAncestor focal) ab).2 = ab ∧
    ancestor_builder_make_ancestor ((abStep (.makeAncestor focal) ab).2) focal =
      ancestor_builder_make_ancestor ab focal :=
  ⟨rfl, rfl⟩

/- ===================== C4 / C5: dump-restore machinery ===================== -/

/-- Projection of an edge onto its identifying triple (parent, child, left). -/
def pathKey (e : EdgeRec) : Nat × Nat × Nat := (e.parent, e.child, e.left)

/-- Invariant: every stored mutation references a site and a node in range. -/
def mutsOK (s : TSBState) : Prop :=
  ∀ mu ∈ s.muts, mu.site < s.numSites ∧ mu.node < s.nodes.length

instance (s : TSBState) : Decidable (edgesOK s) :=
  inferInstanceAs (Decidable (∀ e ∈ s.edges, edgeChk s e = true))

instance (s : TSBState) : Decidable (mutsOK s) :=
  inferInstanceAs (Decidable (∀ mu ∈ s.muts, mu.site < s.numSites ∧ mu.node < s.nodes.length))

/-- Equal canonical dump keys force equal (parent, child, left) triples. -/
theorem edgeKeyN_inj_on (nodes : List NodeRec) {a b : EdgeRec}
    (h : edgeKeyN nodes a = edgeKeyN nodes b) : pathKey a = pathKey b := by
  simp only [edgeKeyN, toLex_inj, Prod.mk.injEq] at h
  simp only [pathKey, Prod.mk.injEq]
  exact ⟨h.2.1, h.2.2⟩

/-- Sorted lists with pairwise-distinct keys that are permutations of one
another are equal. -/
theorem sorted_nodupkeys_unique {α κ : Type} [LinearOrder κ] (key : α → κ)
    {l1 l2 : List α} (hp : l1.Perm l2)
    (h1 : List.Sorted (fun a b => key a ≤ key b) l1)
    (h2 : List.Sorted (fun a b => key a ≤ key b) l2)
    (hn : (l1.map key).Nodup) : l1 = l2 := by
  have hn2 : (l2.map key).Nodup := ((hp.map key).nodup_iff).1 hn
  have hne1 := List.pairwise_map.1 hn
  have hne2 := List.pairwise_map.1 hn2
  have hlt1 : List.Pairwise (fun a b => key a < key b) l1 :=
    (h1.and hne1).imp (fun h => lt_of_le_of_ne h.1 h.2)
  have hlt2 : List.Pairwise (fun a b => key a < key b) l2 :=
    (h2.and hne2).imp (fun h => lt_of_le_of_ne h.1 h.2)
  haveI : IsAntisymm α (fun a b => key a < key b) :=
    ⟨fun _ _ h h₂ => absurd h₂ (not_lt.2 h.le)⟩
  exact List.eq_of_perm_of_sorted hp hlt1 hlt2

/-- Distinct (parent, child, left) triples give distinct canonical dump keys. -/
theorem nodup_edgeKeyN_of_pathKey (nodes : List NodeRec) {l : List EdgeRec}
    (h : (l.map pathKey).Nodup) : (l.map (edgeKeyN nodes)).Nodup := by
  have h' := List.pairwise_map.1 h
  exact List.pairwise_map.2 (h'.imp (fun hab hk => hab (edgeKeyN_inj_on nodes hk)))

/-- Filtering distributes over flatMap. -/
theorem filter_flatMap {α β : Type} (l : List α) (f : α → List β) (p : β → Bool) :
    (l.flatMap f).filter p = l.flatMap (fun a => (f a).filter p) := by
  induction l with
  | nil => rfl
  | cons a t ih => simp only [List.flatMap_cons, List.filter_append, ih]

/-- Congruence of flatMap for functions equal on the list members. -/
theorem flatMap_congr_mem {α β : Type} {l : List α} {f g : α → List β}
    (h : ∀ a ∈ l, f a = g a) : l.flatMap f = l.flatMap g := by
  induction l with
  | nil => rfl
  | cons a t ih =>
    simp only [List.flatMap_cons]
    rw [h a (List.mem_cons_self a t), ih (fun x hx => h x (List.mem_cons_of_mem a hx))]

/-- Site filter of the grouped mutation list recovers the plain site filter. -/
theorem filter_mutsBySite (S s' : Nat) (h : s' < S) (ms : List MutRec) :
    (mutsBySite S ms).filter (fun mu => decide (mu.site = s')) =
      ms.filter (fun mu => decide (mu.site = s')) := by
  unfold mutsBySite
  rw [filter_flatMap]
  induction S with
  | zero => omega
  | succ S ih =>
    rw [List.range_succ, List.flatMap_append]
    by_cases hs : s' < S
    · rw [ih hs]
      have hnil : (List.filter (fun mu => decide (mu.site = s'))
          (List.filter (fun mu => decide (mu.site = S)) ms)) = [] := by
        rw [List.filter_filter]
        apply List.filter_eq_nil_iff.2
        intro mu _
        simp only [Bool.and_eq_true, decide_eq_true_eq, not_and]
        intro h1 h2
        omega
      simp only [List.flatMap_cons, List.flatMap_nil, List.append_nil, hnil]
    · have hS : s' = S := by omega
      subst hS
      have hnil : ((List.range s').flatMap (fun t =>
          List.filter (fun mu => decide (mu.site = s'))
            (List.filter (fun mu => decide (mu.site = t)) ms))) = [] := by
        apply List.flatMap_eq_nil_iff.2
        intro t ht
        rw [List.mem_range] at ht
        rw [List.filter_filter]
        apply List.filter_eq_nil_iff.2
        intro mu _
        simp only [Bool.and_eq_true, decide_eq_true_eq, not_and]
        intro h1 h2
        omega
      rw [hnil]
      simp only [List.nil_append, List.flatMap_cons, List.flatMap_nil, List.append_nil]
      rw [List.filter_filter]
      apply List.filter_congr
      intro mu _
      simp
  
/-- Grouping mutations by site is idempotent. -/
theorem mutsBySite_idem (S : Nat) (ms : List MutRec) :
    mutsBySite S (mutsBySite S ms) = mutsBySite S ms := by
  show (List.range S).flatMap _ = mutsBySite S ms
  rw [show (fun site => (mutsBySite S ms).filter (fun m => decide (m.site = site))) =
      fun site => (mutsBySite S ms).filter (fun m => decide (m.site = site)) from rfl]
  unfold mutsBySite
  apply flatMap_congr_mem
  intro s' hs'
  rw [List.mem_range] at hs'
  exact filter_mutsBySite S s' hs' ms

/-- Members of the grouped mutation list come from the original list. -/
theorem mem_mutsBySite {S : Nat} {ms : List MutRec} {mu : MutRec}
    (h : mu ∈ mutsBySite S ms) : mu ∈ ms := by
  unfold mutsBySite at h
  rw [List.mem_flatMap] at h
  obtain ⟨t, _, hmem⟩ := h
  exact (List.mem_filter.1 hmem).1

/-- Rebuilding node records from the dumped flags and times columns is the
identity. -/
theorem zipWith_mk_dump (ns : List NodeRec) :
    List.zipWith (fun f t => NodeRec.mk f t)
      (ns.map (fun n => n.flags)) (ns.map (fun n => n.time)) = ns := by
  induction ns with
  | nil => rfl
  | cons n rest ih => simp only [List.map_cons, List.zipWith_cons_cons, ih]

/-- C4: dumping a valid builder, restoring the dumped arrays into a freshly
allocated builder, and dumping again succeeds and yields byte-identical node,
edge, and mutation arrays. -/
theorem dump_restore_roundtrip (b : TSBState) (hE : edgesOK b) (hM : mutsOK b)
    (hK : (b.edges.map pathKey).Nodup) :
    ∃ s1 s2 s3 : TSBState,
      tree_sequence_builder_restore_nodes (tree_sequence_builder_alloc b.numSites)
          (tree_sequence_builder_dump_nodes b).1 (tree_sequence_builder_dump_nodes b).2
        = (0, s1) ∧
      tree_sequence_builder_restore_edges s1 (tree_sequence_builder_dump_edges b) = (0, s2) ∧
      tree_sequence_builder_restore_mutations s2 (tree_sequence_builder_dump_mutations b).1
        = (0, s3) ∧
      tree_sequence_builder_dump_nodes s3 = tree_sequence_builder_dump_nodes b ∧
      tree_sequence_builder_dump_edges s3 = tree_sequence_builder_dump_edges b ∧
      tree_sequence_builder_dump_mutations s3 = tree_sequence_builder_dump_mutations b := by
  refine ⟨⟨b.numSites, b.nodes, [], []⟩,
          ⟨b.numSites, b.nodes, tree_sequence_builder_dump_edges b, []⟩,
          ⟨b.numSites, b.nodes, tree_sequence_builder_dump_edges b,
            mutsBySite b.numSites b.muts⟩, ?_, ?_, ?_, ?_, ?_, ?_⟩
  · unfold tree_sequence_builder_restore_nodes tree_sequence_builder_alloc
    rw [if_pos (by simp [tree_sequence_builder_dump_nodes])]
    simp only [Prod.mk.injEq, true_and]
    simp only [tree_sequence_builder_dump_nodes]
    rw [zipWith_mk_dump]
  · unfold tree_sequence_builder_restore_edges
    rw [if_pos ?hc]
    case hc =>
      simp only [Bool.and_eq_true, decide_eq_true_eq, List.all_eq_true]
      refine ⟨⟨by trivial, by trivial⟩, ?_⟩
      intro e he
      rw [tree_sequence_builder_dump_edges, List.mem_insertionSort] at he
      rw [@edgeChk_congr b ⟨b.numSites, b.nodes, [], []⟩ rfl rfl]
      exact hE e he
  · unfold tree_sequence_builder_restore_mutations
    rw [if_pos ?hm]
    case hm =>
      rw [Bool.and_eq_true]
      refine ⟨by trivial, ?_⟩
      rw [List.all_eq_true]
      intro mu hmu
      have hmem := mem_mutsBySite (show mu ∈ mutsBySite b.numSites b.muts from hmu)
      have := hM mu hmem
      simp only [Bool.and_eq_true, decide_eq_true_eq]
      exact this
    rfl
  · rfl
  · show List.insertionSort (edgeLEN b.nodes)
        (List.insertionSort (edgeLEN b.nodes) b.edges) =
      List.insertionSort (edgeLEN b.nodes) b.edges
    have hkey : (b.edges.map (edgeKeyN b.nodes)).Nodup :=
      nodup_edgeKeyN_of_pathKey b.nodes hK
    have p1 := List.perm_insertionSort (edgeLEN b.nodes)
      (List.insertionSort (edgeLEN b.nodes) b.edges)
    have p2 := List.perm_insertionSort (edgeLEN b.nodes) b.edges
    refine sorted_nodupkeys_unique (edgeKeyN b.nodes) p1 ?_ ?_ ?_
    · exact List.sorted_insertionSort (edgeLEN b.nodes) _
    · exact List.sorted_insertionSort (edgeLEN b.nodes) _
    · exact ((p1.trans p2).map (edgeKeyN b.nodes)).nodup_iff.2 hkey
  · show (mutsBySite b.numSites (mutsBySite b.numSites b.muts),
        mutParentCol (mutsBySite b.numSites (mutsBySite b.numSites b.muts))) =
      (mutsBySite b.numSites b.muts, mutParentCol (mutsBySite b.numSites b.muts))
    rw [mutsBySite_idem]

/-- Concrete valid builder reached by running opsEx. -/
def bExC4 : TSBState := tsbRun 2 opsEx

/-- Witness for C4 at the concrete builder bExC4. -/
theorem dump_restore_roundtrip_witness :
    ∃ s1 s2 s3 : TSBState,
      tree_sequence_builder_restore_nodes (tree_sequence_builder_alloc bExC4.numSites)
          (tree_sequence_builder_dump_nodes bExC4).1 (tree_sequence_builder_dump_nodes bExC4).2
        = (0, s1) ∧
      tree_sequence_builder_restore_edges s1 (tree_sequence_builder_dump_edges bExC4) = (0, s2) ∧
      tree_sequence_builder_restore_mutations s2 (tree_sequence_builder_dump_mutations bExC4).1
        = (0, s3) ∧
      tree_sequence_builder_dump_nodes s3 = tree_sequence_builder_dump_nodes bExC4 ∧
      tree_sequence_builder_dump_edges s3 = tree_sequence_builder_dump_edges bExC4 ∧
      tree_sequence_builder_dump_mutations s3 = tree_sequence_builder_dump_mutations bExC4 :=
  dump_restore_roundtrip bExC4 (by decide) (by decide) (by decide)

/- ===================== C5: bulk restore vs sequential insertion ===================== -/

/-- Sequential insertion of per-child edge groups through add_path. -/
def addPaths (s : TSBState) (cs : List (Nat × List EdgeRec)) : TSBState :=
  cs.foldl (fun s p => (tree_sequence_builder_add_path s p.1 p.2).2) s

/-- Every add_path call in the sequence succeeds. -/
def addPathsOKb : TSBState → List (Nat × List EdgeRec) → Bool
  | _, [] => true
  | s, p :: rest =>
    decide ((tree_sequence_builder_add_path s p.1 p.2).1 = 0) &&
      addPathsOKb (tree_sequence_builder_add_path s p.1 p.2).2 rest

/-- A successful add_path call appends exactly its edges. -/
theorem add_path_ok_state {s : TSBState} {c : Nat} {es : List EdgeRec}
    (h : (tree_sequence_builder_add_path s c es).1 = 0) :
    (tree_sequence_builder_add_path s c es).2 = { s with edges := s.edges ++ es } := by
  unfold tree_sequence_builder_add_path at h ⊢
  split at h
  · split
    · rfl
    · next h1 h2 => exact absurd ‹_› h2
  · exact absurd h (by norm_num [TSI_ERR_ARG])

/-- add_path never touches the node table, the site count, or the mutations. -/
theorem add_path_frame (s : TSBState) (c : Nat) (es : List EdgeRec) :
    ((tree_sequence_builder_add_path s c es).2.nodes = s.nodes ∧
     (tree_sequence_builder_add_path s c es).2.numSites = s.numSites ∧
     (tree_sequence_builder_add_path s c es).2.muts = s.muts) := by
  unfold tree_sequence_builder_add_path
  split <;> exact ⟨rfl, rfl, rfl⟩

/-- Sequential insertion never touches nodes, site count, or mutations. -/
theorem addPaths_frame (cs : List (Nat × List EdgeRec)) :
    ∀ s : TSBState,
      (addPaths s cs).nodes = s.nodes ∧ (addPaths s cs).numSites = s.numSites ∧
      (addPaths s cs).muts = s.muts := by
  induction cs with
  | nil => exact fun s => ⟨rfl, rfl, rfl⟩
  | cons p rest ih =>
    intro s
    have hstep := add_path_frame s p.1 p.2
    have hrest := ih (tree_sequence_builder_add_path s p.1 p.2).2
    exact ⟨hrest.1.trans hstep.1, hrest.2.1.trans hstep.2.1, hrest.2.2.trans hstep.2.2⟩

/-- A successful sequential insertion appends the concatenation of the groups. -/
theorem addPaths_edges (cs : List (Nat × List EdgeRec)) :
    ∀ s : TSBState, addPathsOKb s cs = true →
      (addPaths s cs).edges = s.edges ++ cs.flatMap (fun p => p.2) := by
  induction cs with
  | nil => intro s _; simp [addPaths]
  | cons p rest ih =>
    intro s h
    unfold addPathsOKb at h
    rw [Bool.and_eq_true, decide_eq_true_eq] at h
    have hstate := add_path_ok_state h.1
    show (addPaths (tree_sequence_builder_add_path s p.1 p.2).2 rest).edges = _
    rw [ih _ h.2, hstate]
    simp [List.flatMap_cons, List.append_assoc]

/-- A successful add_mutations call appends exactly its mutations. -/
theorem add_mutations_ok_state {s : TSBState} {node : Nat} {ms : List (Nat × Int)}
    (h : (tree_sequence_builder_add_mutations s node ms).1 = 0) :
    (tree_sequence_builder_add_mutations s node ms).2
      = { s with muts := s.muts ++ ms.map (fun m => MutRec.mk m.1 node m.2) } := by
  unfold tree_sequence_builder_add_mutations at h ⊢
  split at h
  · split
    · rfl
    · next h1 h2 => exact absurd ‹_› h2
  · exact absurd h (by norm_num [TSI_ERR_ARG])

/-- add_mutations never touches the node table, the site count, or the edges. -/
theorem add_mutations_frame (s : TSBState) (node : Nat) (ms : List (Nat × Int)) :
    (tree_sequence_builder_add_mutations s node ms).2.nodes = s.nodes ∧
    (tree_sequence_builder_add_mutations s node ms).2.numSites = s.numSites ∧
    (tree_sequence_builder_add_mutations s node ms).2.edges = s.edges := by
  unfold tree_sequence_builder_add_mutations
  split <;> exact ⟨rfl, rfl, rfl⟩

/-- Sequential insertion of per-node mutation groups through add_mutations. -/
def addMutsSeq (s : TSBState) (gs : List (Nat × List (Nat × Int))) : TSBState :=
  gs.foldl (fun s g => (tree_sequence_builder_add_mutations s g.1 g.2).2) s

/-- Every add_mutations call in the sequence succeeds. -/
def addMutsOKb : TSBState → List (Nat × List (Nat × Int)) → Bool
  | _, [] => true
  | s, g :: rest =>
    decide ((tree_sequence_builder_add_mutations s g.1 g.2).1 = 0) &&
      addMutsOKb (tree_sequence_builder_add_mutations s g.1 g.2).2 rest

/-- Sequential mutation insertion never touches nodes, site count, or edges. -/
theorem addMutsSeq_frame (gs : List (Nat × List (Nat × Int))) :
    ∀ s : TSBState,
      (addMutsSeq s gs).nodes = s.nodes ∧ (addMutsSeq s gs).numSites = s.numSites ∧
      (addMutsSeq s gs).edges = s.edges := by
  induction gs with
  | nil => exact fun s => ⟨rfl, rfl, rfl⟩
  | cons g rest ih =>
    intro s
    have hstep := add_mutations_frame s g.1 g.2
    have hrest := ih (tree_sequence_builder_add_mutations s g.1 g.2).2
    exact ⟨hrest.1.trans hstep.1, hrest.2.1.trans hstep.2.1, hrest.2.2.trans hstep.2.2⟩

/-- A successful sequential mutation insertion appends the concatenation of the
groups, each stamped with its call node. -/
theorem addMutsSeq_muts (gs : List (Nat × List (Nat × Int))) :
    ∀ s : TSBState, addMutsOKb s gs = true →
      (addMutsSeq s gs).muts
        = s.muts ++ gs.flatMap (fun g => g.2.map (fun m => MutRec.mk m.1 g.1 m.2)) := by
  induction gs with
  | nil =>
    intro s _
    simp [addMutsSeq]
  | cons g rest ih =>
    intro s h
    unfold addMutsOKb at h
    rw [Bool.and_eq_true, decide_eq_true_eq] at h
    have hstate := add_mutations_ok_state h.1
    show (addMutsSeq (tree_sequence_builder_add_mutations s g.1 g.2).2 rest).muts = _
    rw [ih _ h.2, hstate]
    simp [List.flatMap_cons, List.append_assoc]

/-- C5: bulk-restoring an edge array and a mutation array into a fresh builder
is byte-equivalent, through the canonical dumps, to inserting the same edges
sequentially as per-child paths through add_path and the same mutations
sequentially as per-node groups through add_mutations.  The same mutations
means the same per-site insertion sequences, since the canonical dump keeps
insertion order within a site. -/
theorem restore_equiv_seq (s0 : TSBState) (cs : List (Nat × List EdgeRec))
    (es : List EdgeRec) (gs : List (Nat × List (Nat × Int))) (ms : List MutRec)
    (h0 : s0.edges = []) (h0m : s0.muts = [])
    (hperm : es.Perm (cs.flatMap (fun p => p.2)))
    (hseq : addPathsOKb s0 cs = true)
    (hval : es.all (fun e => edgeChk s0 e) = true)
    (hK : ((cs.flatMap (fun p => p.2)).map pathKey).Nodup)
    (hmseq : addMutsOKb (addPaths s0 cs) gs = true)
    (hmval : ms.all (fun mu => decide (mu.site < s0.numSites)
        && decide (mu.node < s0.nodes.length)) = true)
    (hmsite : ∀ t, t < s0.numSites →
      ms.filter (fun mu => decide (mu.site = t)) =
        (gs.flatMap (fun g => g.2.map (fun m => MutRec.mk m.1 g.1 m.2))).filter
          (fun mu => decide (mu.site = t))) :
    (tree_sequence_builder_restore_edges s0 es).1 = 0 ∧
    (tree_sequence_builder_restore_mutations
        (tree_sequence_builder_restore_edges s0 es).2 ms).1 = 0 ∧
    tree_sequence_builder_dump_edges
        (tree_sequence_builder_restore_mutations
          (tree_sequence_builder_restore_edges s0 es).2 ms).2 =
      tree_sequence_builder_dump_edges (addMutsSeq (addPaths s0 cs) gs) ∧
    tree_sequence_builder_dump_nodes
        (tree_sequence_builder_restore_mutations
          (tree_sequence_builder_restore_edges s0 es).2 ms).2 =
      tree_sequence_builder_dump_nodes (addMutsSeq (addPaths s0 cs) gs) ∧
    tree_sequence_builder_dump_mutations
        (tree_sequence_builder_restore_mutations
          (tree_sequence_builder_restore_edges s0 es).2 ms).2 =
      tree_sequence_builder_dump_mutations (addMutsSeq (addPaths s0 cs) gs) := by
  have hrestore : tree_sequence_builder_restore_edges s0 es
      = (0, { s0 with edges := es }) := by
    unfold tree_sequence_builder_restore_edges
    rw [if_pos]
    rw [h0, h0m, hval]
    rfl
  have hrestoreM : tree_sequence_builder_restore_mutations { s0 with edges := es } ms
      = (0, { s0 with edges := es, muts := ms }) := by
    unfold tree_sequence_builder_restore_mutations
    split
    · rfl
    · next hcon =>
      exfalso
      apply hcon
      rw [Bool.and_eq_true]
      refine ⟨?_, hmval⟩
      show decide (s0.muts = []) = true
      simp [h0m]
  have hframe := addPaths_frame cs s0
  have hedges := addPaths_edges cs s0 hseq
  rw [h0, List.nil_append] at hedges
  have hmf := addMutsSeq_frame gs (addPaths s0 cs)
  have hmuts := addMutsSeq_muts gs (addPaths s0 cs) hmseq
  rw [hframe.2.2, h0m, List.nil_append] at hmuts
  refine ⟨by rw [hrestore], by rw [hrestore, hrestoreM], ?_, ?_, ?_⟩
  · rw [hrestore, hrestoreM]
    show List.insertionSort (edgeLEN s0.nodes) es = _
    rw [tree_sequence_builder_dump_edges, hmf.1, hmf.2.2, hframe.1, hedges]
    have hKes : (es.map pathKey).Nodup := (hperm.map pathKey).nodup_iff.2 hK
    have p1 := List.perm_insertionSort (edgeLEN s0.nodes) es
    have p2 := List.perm_insertionSort (edgeLEN s0.nodes) (cs.flatMap (fun p => p.2))
    refine sorted_nodupkeys_unique (edgeKeyN s0.nodes)
      (p1.trans (hperm.trans p2.symm)) ?_ ?_ ?_
    · exact List.sorted_insertionSort (edgeLEN s0.nodes) _
    · exact List.sorted_insertionSort (edgeLEN s0.nodes) _
    · exact (p1.map (edgeKeyN s0.nodes)).nodup_iff.2 (nodup_edgeKeyN_of_pathKey s0.nodes hKes)
  · rw [hrestore, hrestoreM]
    show (s0.nodes.map _, s0.nodes.map _) = _
    rw [tree_sequence_builder_dump_nodes, hmf.1, hframe.1]
  · rw [hrestore, hrestoreM]
    show (mutsBySite s0.numSites ms, mutParentCol (mutsBySite s0.numSites ms)) = _
    rw [tree_sequence_builder_dump_mutations, hmf.2.1, hframe.2.1, hmuts]
    have hgs : mutsBySite s0.numSites ms
        = mutsBySite s0.numSites
            (gs.flatMap (fun g => g.2.map (fun m => MutRec.mk m.1 g.1 m.2))) := by
      unfold mutsBySite
      apply flatMap_congr_mem
      intro t ht
      rw [List.mem_range] at ht
      exact hmsite t ht
    rw [hgs]

/-- Concrete fresh builder with three nodes of times 2, 1, 0. -/
def s0C5 : TSBState :=
  (tree_sequence_builder_restore_nodes (tree_sequence_builder_alloc 2)
    [0, 0, 0] [2, 1, 0]).2

/-- Concrete per-child add_path calls. -/
def csC5 : List (Nat × List EdgeRec) := [(1, [⟨0, 2, 0, 1⟩]), (2, [⟨0, 2, 1, 2⟩])]

/-- The same edges, in a different (interleaved) bulk order. -/
def esC5 : List EdgeRec := [⟨0, 2, 1, 2⟩, ⟨0, 2, 0, 1⟩]

/-- Concrete per-node add_mutations calls. -/
def gsC5 : List (Nat × List (Nat × Int)) := [(1, [(0, 1)]), (2, [(0, 1), (1, 1)])]

/-- The same mutations, in a different (interleaved) bulk order with the
per-site insertion order preserved. -/
def msC5 : List MutRec := [⟨0, 1, 1⟩, ⟨1, 2, 1⟩, ⟨0, 2, 1⟩]

/-- Witness for C5 at the concrete three-node builder with two edges and three
mutations. -/
theorem restore_equiv_seq_witness :
    (tree_sequence_builder_restore_edges s0C5 esC5).1 = 0 ∧
    (tree_sequence_builder_restore_mutations
        (tree_sequence_builder_restore_edges s0C5 esC5).2 msC5).1 = 0 ∧
    tree_sequence_builder_dump_edges
        (tree_sequence_builder_restore_mutations
          (tree_sequence_builder_restore_edges s0C5 esC5).2 msC5).2 =
      tree_sequence_builder_dump_edges (addMutsSeq (addPaths s0C5 csC5) gsC5) ∧
    tree_sequence_builder_dump_nodes
        (tree_sequence_builder_restore_mutations
          (tree_sequence_builder_restore_edges s0C5 esC5).2 msC5).2 =
      tree_sequence_builder_dump_nodes (addMutsSeq (addPaths s0C5 csC5) gsC5) ∧
    tree_sequence_builder_dump_mutations
        (tree_sequence_builder_restore_mutations
          (tree_sequence_builder_restore_edges s0C5 esC5).2 msC5).2 =
      tree_sequence_builder_dump_mutations (addMutsSeq (addPaths s0C5 csC5) gsC5) :=
  restore_equiv_seq s0C5 csC5 esC5 gsC5 msC5 (by decide) (by decide) (by decide)
    (by decide) (by decide) (by decide) (by decide) (by decide) (by decide)

/- ===================== C9: forward-pass likelihood facts ===================== -/

/-- Foldr max over rationals is at least its base value 0. -/
theorem foldr_max_base (l : List ℚ) : 0 ≤ l.foldr max 0 := by
  induction l with
  | nil => exact le_refl 0
  | cons a t ih => exact le_trans ih (le_max_right a _)

/-- The likelihood maximum is never negative. -/
theorem maxOver_nonneg (N : Nat) (f : Nat → ℚ) : 0 ≤ maxOver N f :=
  foldr_max_base _

/-- Every member bounds the foldr max from below. -/
theorem mem_le_foldr_max {a : ℚ} {l : List ℚ} (h : a ∈ l) : a ≤ l.foldr max 0 := by
  induction l with
  | nil => exact absurd h (List.not_mem_nil a)
  | cons b t ih =>
    rcases List.mem_cons.1 h with rfl | h2
    · exact le_max_left _ _
    · exact le_trans (ih h2) (le_max_right _ _)

/-- Every in-range value bounds the likelihood maximum from below. -/
theorem le_maxOver {N u : Nat} (hu : u < N) (f : Nat → ℚ) : f u ≤ maxOver N f :=
  mem_le_foldr_max (List.mem_map_of_mem f (List.mem_range.2 hu))

/-- Foldr max is bounded by any nonnegative upper bound of the members. -/
theorem foldr_max_le {c : ℚ} (hc : 0 ≤ c) {l : List ℚ} (h : ∀ a ∈ l, a ≤ c) :
    l.foldr max 0 ≤ c := by
  induction l with
  | nil => exact hc
  | cons a t ih =>
    exact max_le (h a (List.mem_cons_self a t))
      (ih (fun x hx => h x (List.mem_cons_of_mem a hx)))

/-- The likelihood maximum is bounded by any nonnegative bound of the values. -/
theorem maxOver_le {N : Nat} {f : Nat → ℚ} {c : ℚ} (hc : 0 ≤ c)
    (h : ∀ u, u < N → f u ≤ c) : maxOver N f ≤ c := by
  apply foldr_max_le hc
  intro a ha
  rw [List.mem_map] at ha
  obtain ⟨u, hu, rfl⟩ := ha
  exact h u (List.mem_range.1 hu)

/-- The likelihood maximum is zero or attained at some in-range node. -/
theorem maxOver_eq_zero_or_mem (N : Nat) (f : Nat → ℚ) :
    maxOver N f = 0 ∨ ∃ u, u < N ∧ f u = maxOver N f := by
  suffices h : ∀ l : List ℚ, l.foldr max 0 = 0 ∨ l.foldr max 0 ∈ l by
    rcases h ((List.range N).map f) with h0 | hmem
    · exact Or.inl h0
    · right
      rw [List.mem_map] at hmem
      obtain ⟨u, hu, he⟩ := hmem
      exact ⟨u, List.mem_range.1 hu, he⟩
  intro l
  induction l with
  | nil => exact Or.inl rfl
  | cons a t ih =>
    rcases max_choice a (t.foldr max 0) with h | h
    · right
      rw [List.foldr_cons, h]
      exact List.mem_cons_self _ _
    · rw [List.foldr_cons, h]
      rcases ih with h0 | hm
      · exact Or.inl h0
      · exact Or.inr (List.mem_cons_of_mem a hm)

/-- Foldr max commutes with scaling by a nonnegative factor. -/
theorem foldr_max_scale {c : ℚ} (hc : 0 ≤ c) (l : List ℚ) :
    (l.map (fun x => x * c)).foldr max 0 = l.foldr max 0 * c := by
  induction l with
  | nil => simp
  | cons a t ih =>
    simp only [List.map_cons, List.foldr_cons, ih]
    rw [max_mul_of_nonneg _ _ hc]

/-- The likelihood maximum commutes with scaling by a nonnegative factor. -/
theorem maxOver_scale (N : Nat) (f : Nat → ℚ) {c : ℚ} (hc : 0 ≤ c) :
    maxOver N (fun u => f u * c) = maxOver N f * c := by
  unfold maxOver
  rw [← foldr_max_scale hc, List.map_map]
  rfl

/-- The maximum of the constant-one vector over a nonempty range is one. -/
theorem maxOver_const_one {N : Nat} (hN : 0 < N) :
    maxOver N (fun _ => (1 : ℚ)) = 1 := by
  refine le_antisymm (maxOver_le (by norm_num) (fun u _ => le_refl 1)) ?_
  exact le_maxOver hN (fun _ => (1 : ℚ))

/-- Shape of a successful forward step: the maximum was nonzero and the record
is built from the step quantities. -/
theorem siteStep_ok_out {m : Matcher} {s : Nat} {aq : Int} {L : Nat → ℚ} {r : SiteRec}
    (h : siteStep m s aq L = Except.ok r) :
    ssM2 m s aq L ≠ 0 ∧
    r = ⟨ssFlags m s L,
         ((List.range (ssN m)).find? (fun u => decide (ssL2 m s aq L u = ssM2 m s aq L))).getD 0,
         fun u => ssL2 m s aq L u / ssM2 m s aq L⟩ := by
  unfold siteStep at h
  split at h
  · exact absurd h (by simp)
  · next hM2 =>
    simp only [Except.ok.injEq] at h
    exact ⟨hM2, h.symm⟩

/-- The post-emission likelihoods are nonnegative for valid rates and error. -/
theorem ssL2_nonneg {m : Matcher} {s : Nat} {aq : Int} {L : Nat → ℚ}
    (hrho : 0 ≤ rateAt m s ∧ rateAt m s ≤ 1) (hth : 0 ≤ m.theta ∧ m.theta ≤ 1)
    (hLpos : ∀ u, 0 ≤ L u) : ∀ u, 0 ≤ ssL2 m s aq L u := by
  intro u
  unfold ssL2
  apply mul_nonneg
  · split
    · exact mul_nonneg (hLpos u) (by linarith [hrho.2])
    · exact div_nonneg hrho.1 (Nat.cast_nonneg _)
  · unfold emissionFactor
    split
    · norm_num
    · split
      · linarith [hth.2]
      · exact hth.1

/-- A nonzero post-emission maximum is positive. -/
theorem ssM2_pos {m : Matcher} {s : Nat} {aq : Int} {L : Nat → ℚ}
    (h : ssM2 m s aq L ≠ 0) : 0 < ssM2 m s aq L :=
  lt_of_le_of_ne (maxOver_nonneg _ _) (Ne.symm h)

/-- The normalized likelihood vector of a successful step has maximum one. -/
theorem siteStep_lik_max {m : Matcher} {s : Nat} {aq : Int} {L : Nat → ℚ}
    (h : ssM2 m s aq L ≠ 0) :
    maxOver (ssN m) (fun u => ssL2 m s aq L u / ssM2 m s aq L) = 1 := by
  have hinv : (0 : ℚ) ≤ (ssM2 m s aq L)⁻¹ :=
    inv_nonneg.2 (le_of_lt (ssM2_pos h))
  calc maxOver (ssN m) (fun u => ssL2 m s aq L u / ssM2 m s aq L)
      = maxOver (ssN m) (fun u => ssL2 m s aq L u * (ssM2 m s aq L)⁻¹) := by
        simp only [div_eq_mul_inv]
    _ = maxOver (ssN m) (ssL2 m s aq L) * (ssM2 m s aq L)⁻¹ :=
        maxOver_scale _ _ hinv
    _ = ssM2 m s aq L * (ssM2 m s aq L)⁻¹ := rfl
    _ = 1 := mul_inv_cancel₀ h

/-- The recorded maximum-likelihood node of a successful step is in range and
carries normalized likelihood one. -/
theorem siteStep_maxNode {m : Matcher} {s : Nat} {aq : Int} {L : Nat → ℚ}
    (h : ssM2 m s aq L ≠ 0) :
    (((List.range (ssN m)).find?
        (fun u => decide (ssL2 m s aq L u = ssM2 m s aq L))).getD 0 < ssN m) ∧
    ssL2 m s aq L (((List.range (ssN m)).find?
        (fun u => decide (ssL2 m s aq L u = ssM2 m s aq L))).getD 0) / ssM2 m s aq L = 1 := by
  rcases maxOver_eq_zero_or_mem (ssN m) (ssL2 m s aq L) with h0 | hmem
  · exact absurd h0 h
  · obtain ⟨u, hu, he⟩ := hmem
    have hsome : (((List.range (ssN m)).find?
        (fun v => decide (ssL2 m s aq L v = ssM2 m s aq L)))).isSome := by
      rw [List.find?_isSome]
      exact ⟨u, List.mem_range.2 hu, by simp [he, ssM2]⟩
    obtain ⟨u0, hfind⟩ := Option.isSome_iff_exists.1 hsome
    have hp := List.find?_some hfind
    have hmem0 := List.mem_of_find?_eq_some hfind
    rw [List.mem_range] at hmem0
    rw [decide_eq_true_eq] at hp
    rw [hfind]
    exact ⟨hmem0, by rw [Option.getD_some, hp]; exact div_self h⟩

/-- At a zero-rate site, a flagged node ends with zero likelihood. -/
theorem siteStep_flag_zero {m : Matcher} {s : Nat} {aq : Int} {L : Nat → ℚ}
    (hr : rateAt m s = 0) (u : Nat) (hf : ssFlags m s L u = true) :
    ssL2 m s aq L u / ssM2 m s aq L = 0 := by
  have hz : ssZ m s = 0 := by
    unfold ssZ
    rw [hr, zero_div]
  have hzM : ssZ m s ≤ ssM m s L := by
    rw [hz]
    exact maxOver_nonneg _ _
  unfold ssFlags at hf
  simp only [Bool.not_eq_eq_eq_not, Bool.not_true] at hf
  have hyne : ¬(ssY m s L u = ssM m s L) := by
    intro hy
    simp [hzM, hy] at hf
  unfold ssL2
  rw [if_neg (fun hc => hyne hc.2), hz, zero_mul, zero_div]

/-- At a rate-one site the no-recombination maximum vanishes. -/
theorem ssM_rate_one {m : Matcher} {s : Nat} {L : Nat → ℚ}
    (hr : rateAt m s = 1) : ssM m s L = 0 := by
  unfold ssM ssY
  rw [hr]
  simp only [sub_self]
  rw [maxOver_scale (ssN m) L (le_refl (0 : ℚ))]
  exact mul_zero _

/-- At a rate-one site the population-recombination likelihood is positive. -/
theorem ssZ_rate_one_pos {m : Matcher} {s : Nat}
    (hr : rateAt m s = 1) (hN : 0 < ssN m) : 0 < ssZ m s := by
  unfold ssZ
  rw [hr]
  apply div_pos one_pos
  exact_mod_cast hN

/-- An unflagged node attained the previous maximum, so its previous normalized
likelihood was one. -/
theorem siteStep_unflag_prev {m : Matcher} {s : Nat} {L : Nat → ℚ}
    (hrho : 0 ≤ rateAt m s ∧ rateAt m s ≤ 1) (hN : 0 < ssN m)
    (hLmax : maxOver (ssN m) L = 1)
    (u : Nat) (hf : ssFlags m s L u = false) : L u = 1 := by
  unfold ssFlags at hf
  simp only [Bool.not_eq_false', Bool.and_eq_true, decide_eq_true_eq] at hf
  by_cases hr1 : rateAt m s = 1
  · exfalso
    have hM0 := ssM_rate_one (L := L) hr1
    have hz := ssZ_rate_one_pos hr1 hN
    rw [hM0] at hf
    linarith [hf.1]
  · have hlt : rateAt m s < 1 := lt_of_le_of_ne hrho.2 hr1
    have hpos : (0 : ℚ) < 1 - rateAt m s := by linarith
    have hM : ssM m s L = 1 - rateAt m s := by
      unfold ssM ssY
      rw [maxOver_scale (ssN m) L (le_of_lt hpos), hLmax, one_mul]
    have hy := hf.2
    unfold ssY at hy
    rw [hM] at hy
    have hy1 : L u * (1 - rateAt m s) = 1 * (1 - rateAt m s) := by
      rw [one_mul]
      exact hy
    exact mul_right_cancel₀ (ne_of_gt hpos) hy1

/-- At a rate-one site every node is flagged as requiring recombination. -/
theorem siteStep_rate_one_flags {m : Matcher} {s : Nat} {L : Nat → ℚ}
    (hr : rateAt m s = 1) (hN : 0 < ssN m) (u : Nat) :
    ssFlags m s L u = true := by
  have hM0 := ssM_rate_one (L := L) hr
  have hz := ssZ_rate_one_pos hr hN
  unfold ssFlags
  have hd : decide (ssZ m s ≤ ssM m s L) = false := by
    simp only [decide_eq_false_iff_not, not_le]
    rw [hM0]
    exact hz
  rw [hd]
  rfl

/-- Likelihood vector entering the step of record index i (the initial vector
for i = 0, else the normalized output of the previous record). -/
def prevLik (recs : List SiteRec) (L : Nat → ℚ) : Nat → Nat → ℚ
  | 0 => L
  | i + 1 => (recAt recs i).lik

/-- Record lookup steps through a cons cell. -/
theorem recAt_cons_succ (r : SiteRec) (rs : List SiteRec) (i : Nat) :
    recAt (r :: rs) (i + 1) = recAt rs i := rfl

/-- Record lookup at the head. -/
theorem recAt_cons_zero (r : SiteRec) (rs : List SiteRec) :
    recAt (r :: rs) 0 = r := rfl

/-- The preceding-vector bookkeeping steps through a cons cell. -/
theorem prevLik_cons (r : SiteRec) (rs : List SiteRec) (L : Nat → ℚ) (i : Nat) :
    prevLik (r :: rs) L (i + 1) = prevLik rs r.lik i := by
  cases i with
  | zero => rfl
  | succ j => rfl

/-- Facts carried by a successful forward pass: every site record has a
normalized likelihood vector of maximum one with nonnegative entries, its
maximum-likelihood node attains one, a flagged node at a zero-rate site ends at
zero, an unflagged node entered the site with likelihood one, and a rate-one
site flags every node. -/
theorem forwardFrom_facts {m : Matcher} {hap : List Int}
    (hrv : ∀ s', 0 ≤ rateAt m s' ∧ rateAt m s' ≤ 1)
    (hth : 0 ≤ m.theta ∧ m.theta ≤ 1) (hN : 0 < ssN m) :
    ∀ (k s : Nat) (L : Nat → ℚ) (recs : List SiteRec) (Lf : Nat → ℚ),
      forwardFrom m hap s k L = Except.ok (recs, Lf) →
      (∀ u, 0 ≤ L u) → maxOver (ssN m) L = 1 →
      recs.length = k ∧
      (∀ i, i < k →
        (maxOver (ssN m) (recAt recs i).lik = 1 ∧
         (∀ u, 0 ≤ (recAt recs i).lik u) ∧
         ((recAt recs i).maxNode < ssN m ∧
           (recAt recs i).lik ((recAt recs i).maxNode) = 1) ∧
         (rateAt m (s + i) = 0 →
           ∀ u, (recAt recs i).flags u = true → (recAt recs i).lik u = 0) ∧
         (∀ u, (recAt recs i).flags u = false → prevLik recs L i u = 1) ∧
         (rateAt m (s + i) = 1 → ∀ u, (recAt recs i).flags u = true))) := by
  intro k
  induction k with
  | zero =>
    intro s L recs Lf h _ _
    unfold forwardFrom at h
    simp only [Except.ok.injEq, Prod.mk.injEq] at h
    obtain ⟨h1, _⟩ := h
    subst h1
    exact ⟨rfl, fun i hi => absurd hi (Nat.not_lt_zero i)⟩
  | succ k ih =>
    intro s L recs Lf h hLpos hLmax
    unfold forwardFrom at h
    cases hs : siteStep m s (hap.getD s 0) L with
    | error c =>
      rw [hs] at h
      exact absurd h (by simp)
    | ok r =>
      rw [hs] at h
      simp only [] at h
      cases hf : forwardFrom m hap (s + 1) k r.lik with
      | error c =>
        rw [hf] at h
        exact absurd h (by simp)
      | ok p =>
        obtain ⟨rs, Lf2⟩ := p
        rw [hf] at h
        simp only [Except.ok.injEq, Prod.mk.injEq] at h
        obtain ⟨hrecs, _⟩ := h
        subst hrecs
        obtain ⟨hM2, hr⟩ := siteStep_ok_out hs
        have hrlik_max : maxOver (ssN m) r.lik = 1 := by
          rw [hr]
          exact siteStep_lik_max hM2
        have hrlik_pos : ∀ u, 0 ≤ r.lik u := by
          rw [hr]
          intro u
          exact div_nonneg (ssL2_nonneg (hrv s) hth hLpos u) (le_of_lt (ssM2_pos hM2))
        have hIH := ih (s + 1) r.lik rs Lf2 hf hrlik_pos hrlik_max
        refine ⟨by simp [hIH.1], ?_⟩
        intro i hi
        cases i with
        | zero =>
          rw [recAt_cons_zero]
          refine ⟨hrlik_max, hrlik_pos, ?_, ?_, ?_, ?_⟩
          · rw [hr]
            exact ⟨(siteStep_maxNode hM2).1, (siteStep_maxNode hM2).2⟩
          · intro hrate u hfl
            rw [hr] at hfl ⊢
            rw [Nat.add_zero] at hrate
            exact siteStep_flag_zero hrate u hfl
          · intro u hfl
            rw [hr] at hfl
            show L u = 1
            exact siteStep_unflag_prev (hrv s) hN hLmax u hfl
          · intro hrate u
            rw [hr]
            rw [Nat.add_zero] at hrate
            exact siteStep_rate_one_flags hrate hN u
        | succ i =>
          rw [recAt_cons_succ, prevLik_cons]
          have hsite : s + (i + 1) = (s + 1) + i := by omega
          rw [hsite]
          exact hIH.2 i (by omega)

/- ===================== C9: traceback boundary lemmas ===================== -/

/-- The traceback accumulator is a passive suffix. -/
theorem tbGo_append (recs : List SiteRec) (st : Nat) :
    ∀ (k u R : Nat) (acc1 acc2 : List Seg),
      tbGo recs st k u R (acc1 ++ acc2) = tbGo recs st k u R acc1 ++ acc2 := by
  intro k
  induction k with
  | zero =>
    intro u R acc1 acc2
    rfl
  | succ k ih =>
    intro u R acc1 acc2
    simp only [tbGo]
    split
    · show tbGo recs st k _ _ ((⟨st + k + 1, R, u⟩ : Seg) :: (acc1 ++ acc2)) = _
      rw [show (⟨st + k + 1, R, u⟩ : Seg) :: (acc1 ++ acc2)
          = ((⟨st + k + 1, R, u⟩ : Seg) :: acc1) ++ acc2 from rfl, ih]
    · exact ih _ _ _ _

/-- The traceback front is nonempty and its last segment closes at the running
right endpoint. -/
theorem tbGo_getLast (recs : List SiteRec) (st : Nat) :
    ∀ (k u R : Nat), ∃ g : Seg,
      (tbGo recs st k u R []).getLast? = some g ∧ g.right = R := by
  intro k
  induction k with
  | zero =>
    intro u R
    exact ⟨⟨st, R, u⟩, rfl, rfl⟩
  | succ k ih =>
    intro u R
    simp only [tbGo]
    split
    · have heq : tbGo recs st k (recAt recs k).maxNode (st + k + 1)
          [⟨st + k + 1, R, u⟩]
          = tbGo recs st k (recAt recs k).maxNode (st + k + 1) []
            ++ [⟨st + k + 1, R, u⟩] := by
        have h := tbGo_append recs st k (recAt recs k).maxNode (st + k + 1)
          [] [⟨st + k + 1, R, u⟩]
        simpa using h
      rw [heq, List.getLast?_concat]
      exact ⟨⟨st + k + 1, R, u⟩, rfl, rfl⟩
    · exact ih u R

/-- Boundary test through a leading segment. -/
theorem isBoundary_cons_cons (a b : Seg) (t : List Seg) (s : Nat) :
    isBoundary (a :: b :: t) s = (decide (a.right = s) || isBoundary (b :: t) s) := by
  simp [isBoundary]

/-- A single segment has no internal boundary. -/
theorem isBoundary_single (a : Seg) (s : Nat) : isBoundary [a] s = false := rfl

/-- The junction of a nonempty front with a following segment is a boundary. -/
theorem isBoundary_concat_cons (x : Seg) (l2 : List Seg) (s : Nat) :
    ∀ (l1 : List Seg) (g : Seg), l1.getLast? = some g → g.right = s →
      isBoundary (l1 ++ x :: l2) s = true := by
  intro l1
  induction l1 with
  | nil =>
    intro g hg _
    exact absurd hg (by simp)
  | cons a t ih =>
    intro g hg hgr
    cases t with
    | nil =>
      simp only [List.getLast?_singleton, Option.some.injEq] at hg
      show isBoundary (a :: x :: l2) s = true
      rw [isBoundary_cons_cons]
      have ha : a.right = s := by
        rw [hg]
        exact hgr
      simp [ha]
    | cons b t2 =>
      have hg' : (b :: t2).getLast? = some g := by
        rwa [List.getLast?_cons_cons] at hg
      show isBoundary (a :: ((b :: t2) ++ x :: l2)) s = true
      have hshape : (b :: t2) ++ x :: l2 = b :: (t2 ++ x :: l2) := rfl
      rw [hshape, isBoundary_cons_cons, ← hshape, ih g hg' hgr]
      simp

/-- Never-boundary lemma: at a zero-rate site the traceback introduces no
segment boundary.  The invariant is that the current node carries normalized
likelihood one at its site; a flagged node at a zero-rate site would carry
zero instead, so the traceback never switches there. -/
theorem tbGo_no_boundary (m : Matcher) (recs : List SiteRec) (a d : Nat)
    (hC : ∀ i, i < d →
      (recAt recs i).maxNode < ssN m ∧
        (recAt recs i).lik ((recAt recs i).maxNode) = 1)
    (hD : ∀ i, i < d → rateAt m (a + i) = 0 →
      ∀ u, (recAt recs i).flags u = true → (recAt recs i).lik u = 0)
    (hE : ∀ i, i + 1 < d →
      ∀ u, (recAt recs (i + 1)).flags u = false → (recAt recs i).lik u = 1)
    (s : Nat) (hrs : rateAt m s = 0) :
    ∀ k, k < d → ∀ (u R : Nat) (acc : List Seg),
      (recAt recs k).lik u = 1 →
      isBoundary acc s = false → (acc = [] ∨ R ≠ s) →
      isBoundary (tbGo recs a k u R acc) s = false := by
  intro k
  induction k with
  | zero =>
    intro _ u R acc hlik hacc hR
    show isBoundary (⟨a, R, u⟩ :: acc) s = false
    cases acc with
    | nil => rfl
    | cons c t =>
      rw [isBoundary_cons_cons]
      rcases hR with h | h
      · exact absurd h (by simp)
      · simp [h, hacc]
  | succ k ih =>
    intro hk u R acc hlik hacc hR
    simp only [tbGo]
    split
    · next hfl =>
      have hs0ne : a + k + 1 ≠ s := by
        intro he
        have h0 : rateAt m (a + (k + 1)) = 0 := by
          rw [show a + (k + 1) = a + k + 1 from rfl, he]
          exact hrs
        have hzero := hD (k + 1) hk h0 u hfl
        rw [hzero] at hlik
        norm_num at hlik
      refine ih (by omega) _ _ _ ((hC k (by omega)).2) ?_ (Or.inr hs0ne)
      cases acc with
      | nil => rfl
      | cons c t =>
        rw [isBoundary_cons_cons]
        rcases hR with h | h
        · exact absurd h (by simp)
        · simp [h, hacc]
    · next hnfl =>
      refine ih (by omega) u R acc ?_ hacc hR
      exact hE k hk u (by simpa using hnfl)

/-- Always-boundary lemma: a site at which every node is flagged as requiring
recombination forces a segment boundary there during the traceback. -/
theorem tbGo_boundary_of_flagged (recs : List SiteRec) (a j : Nat)
    (hj1 : 1 ≤ j) (hflagall : ∀ v, (recAt recs j).flags v = true) :
    ∀ k, j ≤ k → ∀ (u R : Nat) (acc : List Seg),
      isBoundary (tbGo recs a k u R acc) (a + j) = true := by
  intro k
  induction k with
  | zero =>
    intro hk
    omega
  | succ k ih =>
    intro hk u R acc
    by_cases hj : j = k + 1
    · subst hj
      simp only [tbGo]
      rw [if_pos (hflagall u)]
      obtain ⟨g, hg, hgr⟩ := tbGo_getLast recs a k (recAt recs k).maxNode (a + k + 1)
      have heq : tbGo recs a k (recAt recs k).maxNode (a + k + 1)
          (⟨a + k + 1, R, u⟩ :: acc)
          = tbGo recs a k (recAt recs k).maxNode (a + k + 1) []
            ++ (⟨a + k + 1, R, u⟩ :: acc) := by
        have h := tbGo_append recs a k (recAt recs k).maxNode (a + k + 1)
          [] (⟨a + k + 1, R, u⟩ :: acc)
        simpa using h
      rw [heq]
      exact isBoundary_concat_cons _ _ _ _ g hg (by rw [hgr]; omega)
    · have hjk : j ≤ k := by omega
      simp only [tbGo]
      split
      · exact ih hjk _ _ _
      · exact ih hjk _ _ _

/-- Valid per-site rates give valid rate lookups everywhere (the out-of-range
default is 0). -/
theorem rateAt_bounds {m : Matcher} (hrv : ∀ r ∈ m.rate, 0 ≤ r ∧ r ≤ 1)
    (s' : Nat) : 0 ≤ rateAt m s' ∧ rateAt m s' ≤ 1 := by
  unfold rateAt
  rw [List.getD_eq_getElem?_getD]
  cases hg : m.rate[s']? with
  | none => exact ⟨le_refl 0, by norm_num⟩
  | some x =>
    simp only [Option.getD_some]
    obtain ⟨hlt, rfl⟩ := List.getElem?_eq_some_iff.1 hg
    exact hrv _ (List.getElem_mem hlt)

/-- C9: in a successful find_path call over valid rates, a zero-rate site is
never a segment boundary of the returned path, and a rate-one site strictly
inside the matched interval is always a segment boundary. -/
theorem find_path_boundary {m : Matcher} {a b : Nat} {hap : List Int} {out : FPOut}
    (hrv : ∀ r ∈ m.rate, 0 ≤ r ∧ r ≤ 1) (hth : 0 ≤ m.theta ∧ m.theta ≤ 1)
    (hN : 0 < m.tsb.nodes.length)
    (hok : ancestor_matcher_find_path m a b hap = Except.ok out) (s : Nat) :
    (rateAt m s = 0 → isBoundary out.path s = false) ∧
    (a < s → s < b → rateAt m s = 1 → isBoundary out.path s = true) := by
  obtain ⟨hab, _, _, recs, Lf, hfw, hout⟩ := find_path_ok_shape hok
  subst hout
  have hNn : 0 < ssN m := hN
  have hrv' := fun s' => rateAt_bounds hrv s'
  have hfacts := forwardFrom_facts hrv' hth hNn (b - a) a (fun _ => 1) recs Lf hfw
      (fun _ => by norm_num) (maxOver_const_one hNn)
  by_cases hd : b - a = 0
  · constructor
    · intro _
      show isBoundary (pathOf recs a b) s = false
      unfold pathOf
      rw [if_pos hd]
      rfl
    · intro h1 h2 _
      omega
  · have hpath : pathOf recs a b
        = tbGo recs a (b - a - 1) (recAt recs (b - a - 1)).maxNode b [] := by
      unfold pathOf
      rw [if_neg hd]
    constructor
    · intro hr0
      show isBoundary (pathOf recs a b) s = false
      rw [hpath]
      refine tbGo_no_boundary m recs a (b - a)
        (fun i hi => (hfacts.2 i hi).2.2.1)
        (fun i hi => (hfacts.2 i hi).2.2.2.1)
        (fun i hi1 u hfl => (hfacts.2 (i + 1) hi1).2.2.2.2.1 u hfl)
        s hr0 (b - a - 1) (by omega) _ b []
        ((hfacts.2 (b - a - 1) (by omega)).2.2.1.2) rfl (Or.inl rfl)
    · intro h1 h2 hr1
      show isBoundary (pathOf recs a b) s = true
      rw [hpath]
      have hj : s = a + (s - a) := by omega
      rw [hj]
      refine tbGo_boundary_of_flagged recs a (s - a) (by omega)
        ((hfacts.2 (s - a) (by omega)).2.2.2.2.2 ?_)
        (b - a - 1) (by omega) _ b []
      rw [← hj]
      exact hr1

/-- Concrete matcher over two sites: one node, recombination rates [0, 1],
observation error 0. -/
def mEx2 : Matcher := ⟨⟨2, [⟨0, 1⟩], [], []⟩, [0, 1], 0⟩

unseal Rat.mul Rat.sub Rat.add Rat.inv in
/-- Witness for C9 at the concrete matcher mEx2: site 1 has rate 1 and is a
boundary of the returned path, site 0 has rate 0 and is not. -/
theorem find_path_boundary_witness :
    isBoundary (FPOut.mk [⟨0, 1, 0⟩, ⟨1, 2, 0⟩] []).path 1 = true ∧
    isBoundary (FPOut.mk [⟨0, 1, 0⟩, ⟨1, 2, 0⟩] []).path 0 = false :=
  ⟨(find_path_boundary (by decide) (by decide) (by decide)
      (by decide : ancestor_matcher_find_path mEx2 0 2 [0, 0]
        = Except.ok (FPOut.mk [⟨0, 1, 0⟩, ⟨1, 2, 0⟩] [])) 1).2
      (by decide) (by decide) (by decide),
   (find_path_boundary (by decide) (by decide) (by decide)
      (by decide : ancestor_matcher_find_path mEx2 0 2 [0, 0]
        = Except.ok (FPOut.mk [⟨0, 1, 0⟩, ⟨1, 2, 0⟩] [])) 0).1 (by decide)⟩
